import Mathlib

/-!
Shallow embedding of the RBAC reconciliation core of
`pkg/controllers/management/auth/manager.go` and of the node-provisioning
SSH-key wait loop, together with theorems settling the specification
claims about them.

Conventions of the embedding:
* Kubernetes objects become plain structures; the object store becomes an
  explicit list of objects threaded through each operation.
* Go maps with `bool` values (verb sets) become `List String` compared up
  to set membership, mirroring `reflect.DeepEqual` on such maps.
* Cache indexers become pure filter functions over the store (the spec
  treats the store as a transactional object store, so reads observe
  earlier writes of the same pass).
* A Go run-time fault (out-of-bounds index) is modelled by returning the
  state reached so far together with a `false` "completed" flag.
-/

/-- RBAC policy rule, from `k8s.io/api/rbac/v1.PolicyRule`
(fields used by `manager.go`). -/
structure PolicyRule where
  apiGroups : List String
  resources : List String
  resourceNames : List String
  verbs : List String
deriving DecidableEq, Repr

/-- Subject of a role binding (`v1.Subject`, fields used by the key). -/
structure Subject where
  kind : String
  name : String
deriving DecidableEq, Repr

/-- A RoleTemplate (`v3.RoleTemplate`, fields used by `manager.go`). -/
structure RoleTemplate where
  name : String
  rules : List PolicyRule
  external : Bool
  builtin : Bool
  context : String
  administrative : Bool
  roleTemplateNames : List String
deriving DecidableEq, Repr

/-- A native RoleBinding / ClusterRoleBinding (fields used by `manager.go`). -/
structure Binding where
  name : String
  labels : List (String × String)
  subjects : List Subject
  roleRefName : String
deriving DecidableEq, Repr

/-- A native Role / ClusterRole (fields used by `manager.go`). -/
structure MgmtRole where
  name : String
  rules : List PolicyRule
deriving DecidableEq, Repr

/-- Modelled from the spec: the value of an ownership label
(`{bindingUID: "owner"}`); the constant itself is defined outside the
given sources. Its concrete text is irrelevant to every claim. -/
def membershipBindingOwner : String := "membership-binding-owner"

/-- Modelled from the spec: the cluster pseudo-resource name used by the
membership role and the owner check (constant defined outside the given
sources). -/
def clusterResource : String := "clusters"

/-- Modelled from the spec: the project pseudo-resource name used by the
membership role and the owner check (constant defined outside the given
sources). -/
def projectResource : String := "projects"

/-- `commonClusterAndProjectMgmtPlaneResources` from `manager.go`
(a `map[string]bool` with the two listed keys). -/
def commonClusterAndProjectMgmtPlaneResources : List String :=
  ["catalogtemplates", "catalogtemplateversions"]

/-- Modelled from the spec: a membership binding is tagged with an
ownership label `{bindingUID: owner}`; the membership-binding-owner index
(defined outside the given sources) keys bindings by those labels. -/
def taggedWithOwner (rtbUID : String) (b : Binding) : Bool :=
  b.labels.any (fun p => decide (p.1 = rtbUID ∧ p.2 = membershipBindingOwner))

/-- Modelled from the spec: `ByIndex(membershipBindingOwnerIndex, ns+"/"+uid)`
returns the cached bindings carrying the ownership label for that uid. -/
def membershipBindingOwnerIndexLookup (rtbUID : String) (bs : List Binding) :
    List Binding :=
  bs.filter (taggedWithOwner rtbUID)

/-- Modelled from the spec: the role+subject composite key
(`rbRoleSubjectKey`, defined outside the given sources) is modelled as a
structured pair, so distinct (role, subject) pairs have distinct keys. -/
def rbRoleSubjectKey (roleName : String) (s : Subject) : String × Subject :=
  (roleName, s)

/-- Modelled from the spec: `ByIndex(rbByRoleAndSubjectIndex, key)` returns
the cached bindings that carry the key for one of their subjects. -/
def rbByRoleAndSubjectLookup (key : String × Subject) (bs : List Binding) :
    List Binding :=
  bs.filter (fun b => b.subjects.any (fun s => decide (rbRoleSubjectKey b.roleRefName s = key)))

/-- Delete a binding from the store by name (`client.Delete`; a NotFound
answer is tolerated by every caller in `manager.go`). -/
def deleteBinding (name : String) (bs : List Binding) : List Binding :=
  bs.filter (fun b => !(decide (b.name = name)))

/-- Update a binding in the store by name (`client.Update`). -/
def updateBinding (b : Binding) (bs : List Binding) : List Binding :=
  bs.map (fun x => if x.name = b.name then b else x)

/-! ## C1: reconcileMembershipBindingForDelete -/

/-- An object handed back by a cache index: either a `*v1.RoleBinding` or
a `*v1.ClusterRoleBinding`. -/
inductive IndexedObj where
  | rb (b : Binding)
  | crb (b : Binding)
deriving DecidableEq, Repr

/-- The Go type assertion `rb.(*v1.RoleBinding)` performed at the top of
the loop in `reconcileMembershipBindingForDelete`: it succeeds only on a
`RoleBinding`, never on a `ClusterRoleBinding`. -/
def asRoleBinding : IndexedObj → Option Binding
  | .rb b => some b
  | .crb _ => none

/-- Label-map walk of `reconcileMembershipBindingForDelete`: the entry
`{rtbUID: membershipBindingOwner}` is deleted. -/
def stripOwnerLabel (rtbUID : String) (labels : List (String × String)) :
    List (String × String) :=
  labels.filter (fun p => !(decide (p.1 = rtbUID ∧ p.2 = membershipBindingOwner)))

/-- Label-map walk of `reconcileMembershipBindingForDelete`: `otherOwners`
is set when some other label still carries the ownership value. -/
def hasOtherOwners (rtbUID : String) (labels : List (String × String)) : Bool :=
  labels.any (fun p => decide (¬(p.1 = rtbUID ∧ p.2 = membershipBindingOwner) ∧ p.2 = membershipBindingOwner))

/-- `reconcileMembershipBindingForDelete` (manager.go:352-426): walk the
indexed bindings; objects failing the `*v1.RoleBinding` assertion are
skipped; bindings whose role is `roleToKeep` are kept; otherwise the
ownership label is stripped and the binding is deleted when no other
ownership label remains, else updated. -/
def reconcileMembershipBindingForDelete (roleToKeep rtbUID : String)
    (objs : List IndexedObj) (store : List Binding) : List Binding :=
  objs.foldl (fun s obj =>
    match asRoleBinding obj with
    | none => s
    | some rbb =>
      if rbb.roleRefName = roleToKeep then s
      else if hasOtherOwners rtbUID rbb.labels then
        updateBinding { rbb with labels := stripOwnerLabel rtbUID rbb.labels } s
      else
        deleteBinding rbb.name s) store

/-- `reconcileClusterMembershipBindingForDelete` (manager.go:330-337):
the cluster variant feeds `ClusterRoleBinding` objects from the
cluster-role-binding indexer into the shared reconcile. -/
def reconcileClusterMembershipBindingForDelete (roleToKeep rtbUID : String)
    (store : List Binding) : List Binding :=
  reconcileMembershipBindingForDelete roleToKeep rtbUID
    ((membershipBindingOwnerIndexLookup rtbUID store).map IndexedObj.crb) store

/-- `reconcileProjectMembershipBindingForDelete` (manager.go:341-348):
the project variant feeds `RoleBinding` objects from the role-binding
indexer into the shared reconcile. -/
def reconcileProjectMembershipBindingForDelete (roleToKeep rtbUID : String)
    (store : List Binding) : List Binding :=
  reconcileMembershipBindingForDelete roleToKeep rtbUID
    ((membershipBindingOwnerIndexLookup rtbUID store).map IndexedObj.rb) store

/-! ## C4: checkForManagementPlaneRules / checkGroup -/

/-- `checkGroup` (manager.go:710-717). -/
def checkGroup (apiGroup : String) (rule : PolicyRule) : Bool :=
  rule.apiGroups.any (fun rg => decide (rg = apiGroup ∨ rg = "*"))

/-- Verb-collection loop of `checkForManagementPlaneRules`
(manager.go:696-707), over an already-selected rule list. -/
def collectManagementPlaneVerbs (rules : List PolicyRule)
    (managementPlaneResource apiGroup : String) : List String :=
  rules.foldl (fun verbs rule =>
    if (managementPlaneResource ∈ rule.resources ∨ "*" ∈ rule.resources)
        ∧ rule.resourceNames = [] then
      if checkGroup apiGroup rule then verbs ++ rule.verbs else verbs
    else verbs) []

/-- Rule-source selection of `checkForManagementPlaneRules`
(manager.go:682-694): an `External` template reads the rules of the
same-named native cluster role (absence tolerated as no rules), otherwise
its own rules. -/
def rulesForRoleTemplate (clusterRoles : List MgmtRole) (role : RoleTemplate) :
    List PolicyRule :=
  if role.external then
    match clusterRoles.find? (fun cr => decide (cr.name = role.name)) with
    | some externalRole => externalRole.rules
    | none => []
  else role.rules

/-- `checkForManagementPlaneRules` (manager.go:681-708). -/
def checkForManagementPlaneRules (clusterRoles : List MgmtRole)
    (role : RoleTemplate) (managementPlaneResource apiGroup : String) :
    List String :=
  collectManagementPlaneVerbs (rulesForRoleTemplate clusterRoles role)
    managementPlaneResource apiGroup

/-! ## C5: reconcileDesiredMGMTPlaneRoleBindings -/

/-- `reconcileDesiredMGMTPlaneRoleBindings` (manager.go:645-678), with the
issued client writes represented by the returned pair:
first the bindings passed to `Create` (an AlreadyExists answer being
tolerated there), then the names passed to `Delete`.
Both arguments are Go maps keyed by binding name, modelled as lists whose
names are distinct.

`reconcileDesiredStep` is one iteration of the loop over `currentRBs`
(manager.go:648-660): already-processed names are skipped, a name found in
`desiredRBs` is removed from it, and any other name is marked for
deletion. -/
def reconcileDesiredStep (acc : List Binding × List String × List String)
    (rb : Binding) : List Binding × List String × List String :=
  let (desired, rbsToDelete, processed) := acc
  if rb.name ∈ processed then acc
  else if desired.any (fun d => decide (d.name = rb.name)) then
    (desired.filter (fun d => !(decide (d.name = rb.name))), rbsToDelete,
      processed ++ [rb.name])
  else
    (desired, rbsToDelete ++ [rb.name], processed ++ [rb.name])

def reconcileDesiredMGMTPlaneRoleBindings (currentRBs desiredRBs : List Binding) :
    List Binding × List String :=
  let r := currentRBs.foldl reconcileDesiredStep (desiredRBs, [], [])
  (r.1, r.2.1)

/-! ## C9: waitUntilSSHKey -/

/-- The polling loop of `waitUntilSSHKey` (part_000:328-344), with time
discretised to whole seconds: `fileAt t` tells whether `os.Stat` finds the
key file at elapsed time `t`.  The loop body checks the 15-second ceiling,
then stats, then sleeps `increments` seconds and doubles `increments`.
`fuel` bounds the number of iterations so that the definition is
structural; the termination theorem shows 6 iterations always decide. -/
def waitLoop (fileAt : Nat → Bool) : Nat → Nat → Nat → Option (Except String Unit)
  | 0, _, _ => none
  | fuel + 1, elapsed, increments =>
    if 15 < elapsed then some (Except.error "Timeout waiting for ssh key")
    else if fileAt elapsed then some (Except.ok ())
    else waitLoop fileAt fuel (elapsed + increments) (increments * 2)

/-- `waitUntilSSHKey` (part_000:328-344): start at elapsed time 0 with a
1-second sleep increment. -/
def waitUntilSSHKey (fileAt : Nat → Bool) (fuel : Nat) : Option (Except String Unit) :=
  waitLoop fileAt fuel 0 1

/-! ## Theorems for C4 -/

theorem checkGroup_eq_true_iff (apiGroup : String) (rule : PolicyRule) :
    checkGroup apiGroup rule = true ↔ apiGroup ∈ rule.apiGroups ∨ "*" ∈ rule.apiGroups := by
  simp only [checkGroup, List.any_eq_true, decide_eq_true_eq]
  constructor
  · rintro ⟨rg, hrg, rfl | rfl⟩
    · exact Or.inl hrg
    · exact Or.inr hrg
  · rintro (h | h)
    · exact ⟨apiGroup, h, Or.inl rfl⟩
    · exact ⟨"*", h, Or.inr rfl⟩

theorem mem_collect_aux (resource apiGroup v : String) (rules : List PolicyRule)
    (acc : List String) :
    v ∈ rules.foldl (fun verbs rule =>
      if (resource ∈ rule.resources ∨ "*" ∈ rule.resources)
          ∧ rule.resourceNames = [] then
        if checkGroup apiGroup rule then verbs ++ rule.verbs else verbs
      else verbs) acc ↔
    v ∈ acc ∨ ∃ rule ∈ rules,
      (resource ∈ rule.resources ∨ "*" ∈ rule.resources) ∧
      rule.resourceNames = [] ∧
      (apiGroup ∈ rule.apiGroups ∨ "*" ∈ rule.apiGroups) ∧
      v ∈ rule.verbs := by
  induction rules generalizing acc with
  | nil => simp
  | cons r rs ih =>
    simp only [List.foldl_cons]
    by_cases hres : (resource ∈ r.resources ∨ "*" ∈ r.resources) ∧ r.resourceNames = []
    · by_cases hgrp : checkGroup apiGroup r
      · rw [if_pos hres, if_pos hgrp, ih]
        rw [checkGroup_eq_true_iff] at hgrp
        constructor
        · rintro (h | h)
          · rcases List.mem_append.mp h with h' | h'
            · exact Or.inl h'
            · exact Or.inr ⟨r, List.mem_cons_self _ _, hres.1, hres.2, hgrp, h'⟩
          · rcases h with ⟨rule, hrule, hc⟩
            exact Or.inr ⟨rule, List.mem_cons_of_mem _ hrule, hc⟩
        · rintro (h | ⟨rule, hrule, hc⟩)
          · exact Or.inl (List.mem_append.mpr (Or.inl h))
          · rcases List.mem_cons.mp hrule with rfl | hrule'
            · exact Or.inl (List.mem_append.mpr (Or.inr hc.2.2.2))
            · exact Or.inr ⟨rule, hrule', hc⟩
      · rw [if_pos hres, if_neg hgrp, ih]
        constructor
        · rintro (h | ⟨rule, hrule, hc⟩)
          · exact Or.inl h
          · exact Or.inr ⟨rule, List.mem_cons_of_mem _ hrule, hc⟩
        · rintro (h | ⟨rule, hrule, hc⟩)
          · exact Or.inl h
          · rcases List.mem_cons.mp hrule with rfl | hrule'
            · exact absurd ((checkGroup_eq_true_iff apiGroup rule).mpr hc.2.2.1) hgrp
            · exact Or.inr ⟨rule, hrule', hc⟩
    · rw [if_neg hres, ih]
      constructor
      · rintro (h | ⟨rule, hrule, hc⟩)
        · exact Or.inl h
        · exact Or.inr ⟨rule, List.mem_cons_of_mem _ hrule, hc⟩
      · rintro (h | ⟨rule, hrule, hc⟩)
        · exact Or.inl h
        · rcases List.mem_cons.mp hrule with rfl | hrule'
          · exact absurd ⟨hc.1, hc.2.1⟩ hres
          · exact Or.inr ⟨rule, hrule', hc⟩

/-- The `"viewer"` role template of the spec scenario. -/
def viewerTemplate : RoleTemplate :=
  { name := "viewer"
    rules := [{ apiGroups := ["management.cattle.io"], resources := ["clusters"],
                resourceNames := [], verbs := ["get"] }]
    external := false, builtin := false, context := "cluster"
    administrative := false, roleTemplateNames := [] }

/-- C4: `checkForManagementPlaneRules` returns exactly the union of verbs
over the considered rules (own rules, or the same-named native cluster
role's rules when `External`) that list the resource or `"*"`, carry no
resourceNames restriction, and match the API group exactly or by `"*"`;
in particular the `"viewer"` scenario yields `{"get"}` for
`("clusters", "management.cattle.io")` and the empty set for `"other.io"`. -/
theorem checkForManagementPlaneRules_is_union :
    (∀ (clusterRoles : List MgmtRole) (role : RoleTemplate)
        (resource apiGroup v : String),
      v ∈ checkForManagementPlaneRules clusterRoles role resource apiGroup ↔
        ∃ rule ∈ rulesForRoleTemplate clusterRoles role,
          (resource ∈ rule.resources ∨ "*" ∈ rule.resources) ∧
          rule.resourceNames = [] ∧
          (apiGroup ∈ rule.apiGroups ∨ "*" ∈ rule.apiGroups) ∧
          v ∈ rule.verbs) ∧
    checkForManagementPlaneRules [] viewerTemplate "clusters" "management.cattle.io"
      = ["get"] ∧
    checkForManagementPlaneRules [] viewerTemplate "clusters" "other.io" = [] := by
  refine ⟨fun clusterRoles role resource apiGroup v => ?_, by decide, by decide⟩
  rw [checkForManagementPlaneRules, collectManagementPlaneVerbs, mem_collect_aux]
  simp

/-! ## Theorem for C1 -/

/-- A cluster membership binding tagged with ownership label `uid-1`,
whose role differs from the role to keep. -/
def c1Binding : Binding :=
  { name := "crb-1", labels := [("uid-1", membershipBindingOwner)],
    subjects := [{ kind := "User", name := "alice" }], roleRefName := "role-b" }

/-- C1: the cluster variant of reconcile-for-delete leaves a tagged
binding whose role differs from `roleToKeep` completely untouched (the
`*v1.RoleBinding` type assertion fails on every `*v1.ClusterRoleBinding`,
so the loop body never runs), while the same store under the project
variant deletes the binding as the claim demands. -/
theorem reconcileClusterMembershipBindingForDelete_noop_on_tagged_binding :
    reconcileClusterMembershipBindingForDelete "role-a" "uid-1" [c1Binding]
      = [c1Binding] ∧
    reconcileProjectMembershipBindingForDelete "role-a" "uid-1" [c1Binding] = [] := by
  exact ⟨by decide, by decide⟩

/-! ## Theorems for C9 -/

theorem waitLoop_poll (fileAt : Nat → Bool) (k e i : Nat) (he : ¬ 15 < e)
    (hf : fileAt e = false) :
    waitLoop fileAt (k + 1) e i = waitLoop fileAt k (e + i) (i * 2) := by
  simp [waitLoop, he, hf]

theorem waitLoop_found (fileAt : Nat → Bool) (k e i : Nat) (he : ¬ 15 < e)
    (hf : fileAt e = true) :
    waitLoop fileAt (k + 1) e i = some (Except.ok ()) := by
  simp [waitLoop, he, hf]

theorem waitLoop_timeout (fileAt : Nat → Bool) (k e i : Nat) (he : 15 < e) :
    waitLoop fileAt (k + 1) e i = some (Except.error "Timeout waiting for ssh key") := by
  simp [waitLoop, he]

/-- C9: with at least 6 loop iterations of fuel the SSH-key wait always
returns an answer (so the loop terminates): success exactly when the key
file is observed at one of the exponentially spaced poll times
0, 1, 3, 7, 15 seconds, and the timeout error otherwise (the elapsed time
having exceeded the 15-second ceiling). -/
theorem waitUntilSSHKey_terminates (fileAt : Nat → Bool) (fuel : Nat)
    (hfuel : 6 ≤ fuel) :
    waitUntilSSHKey fileAt fuel =
      some (if fileAt 0 || fileAt 1 || fileAt 3 || fileAt 7 || fileAt 15 then
              Except.ok ()
            else Except.error "Timeout waiting for ssh key") := by
  obtain ⟨k, rfl⟩ : ∃ k, fuel = k + 6 := ⟨fuel - 6, by omega⟩
  show waitLoop fileAt (k + 5 + 1) 0 1 = _
  by_cases h0 : fileAt 0
  · rw [waitLoop_found _ _ _ _ (by omega) h0]
    simp [h0]
  · rw [waitLoop_poll _ _ _ _ (by omega) (Bool.not_eq_true _ ▸ h0)]
    show waitLoop fileAt (k + 4 + 1) 1 2 = _
    by_cases h1 : fileAt 1
    · rw [waitLoop_found _ _ _ _ (by omega) h1]
      simp [h1]
    · rw [waitLoop_poll _ _ _ _ (by omega) (Bool.not_eq_true _ ▸ h1)]
      show waitLoop fileAt (k + 3 + 1) 3 4 = _
      by_cases h3 : fileAt 3
      · rw [waitLoop_found _ _ _ _ (by omega) h3]
        simp [h3]
      · rw [waitLoop_poll _ _ _ _ (by omega) (Bool.not_eq_true _ ▸ h3)]
        show waitLoop fileAt (k + 2 + 1) 7 8 = _
        by_cases h7 : fileAt 7
        · rw [waitLoop_found _ _ _ _ (by omega) h7]
          simp [h7]
        · rw [waitLoop_poll _ _ _ _ (by omega) (Bool.not_eq_true _ ▸ h7)]
          show waitLoop fileAt (k + 1 + 1) 15 16 = _
          by_cases h15 : fileAt 15
          · rw [waitLoop_found _ _ _ _ (by omega) h15]
            simp [h15]
          · rw [waitLoop_poll _ _ _ _ (by omega) (Bool.not_eq_true _ ▸ h15)]
            show waitLoop fileAt (k + 1) 31 32 = _
            rw [waitLoop_timeout _ _ _ _ (by omega)]
            simp [h0, h1, h3, h7, h15]

/-- Witness for C9 at a concrete input: the file never appears and the
loop times out. -/
theorem waitUntilSSHKey_terminates_witness :
    (6 ≤ 6) ∧
      waitUntilSSHKey (fun _ => false) 6 =
        some (if (fun _ : Nat => false) 0 || (fun _ : Nat => false) 1
                || (fun _ : Nat => false) 3 || (fun _ : Nat => false) 7
                || (fun _ : Nat => false) 15 then Except.ok ()
              else Except.error "Timeout waiting for ssh key") :=
  ⟨by decide, waitUntilSSHKey_terminates (fun _ => false) 6 (by decide)⟩

/-! ## Theorems for C5 -/

theorem filter_not_name_mem_cons (cname : String) (csnames : List String)
    (desired : List Binding) :
    (desired.filter (fun d => !(decide (d.name = cname)))).filter
        (fun d => !(decide (d.name ∈ csnames))) =
      desired.filter (fun d => !(decide (d.name ∈ cname :: csnames))) := by
  induction desired with
  | nil => rfl
  | cons d ds ih =>
    by_cases h1 : d.name = cname
    · simp [List.filter_cons, h1, ih]
    · by_cases h2 : d.name ∈ csnames
      · simp [List.filter_cons, h1, h2, ih]
      · simp [List.filter_cons, h1, h2, ih]

theorem any_filter_ne (cname xname : String) (h : xname ≠ cname)
    (desired : List Binding) :
    (desired.filter (fun d => !(decide (d.name = cname)))).any
        (fun d => decide (d.name = xname)) =
      desired.any (fun d => decide (d.name = xname)) := by
  rw [Bool.eq_iff_iff]
  simp only [List.any_eq_true, List.mem_filter, decide_eq_true_eq,
    Bool.not_eq_true', decide_eq_false_iff_not]
  constructor
  · rintro ⟨d, ⟨hd, _⟩, he⟩
    exact ⟨d, hd, he⟩
  · rintro ⟨d, hd, he⟩
    exact ⟨d, ⟨hd, fun hc => h (he ▸ hc)⟩, he⟩

theorem filter_not_mem_cons_of_no_match (cname : String) (csnames : List String)
    (desired : List Binding) (h : ∀ d ∈ desired, ¬ d.name = cname) :
    desired.filter (fun d => !(decide (d.name ∈ csnames))) =
      desired.filter (fun d => !(decide (d.name ∈ cname :: csnames))) := by
  apply List.filter_congr
  intro d hd
  rw [Bool.eq_iff_iff]
  simp [List.mem_cons, h d hd]

theorem reconcileDesired_foldl (current : List Binding) :
    ∀ (desired : List Binding) (dels processed : List String),
      (current.map Binding.name).Nodup →
      (∀ c ∈ current, c.name ∉ processed) →
      current.foldl reconcileDesiredStep (desired, dels, processed) =
        (desired.filter (fun d => !(decide (d.name ∈ current.map Binding.name))),
         dels ++ (current.filter
           (fun c => !(desired.any (fun d => decide (d.name = c.name))))).map Binding.name,
         processed ++ current.map Binding.name) := by
  induction current with
  | nil =>
    intro desired dels processed _ _
    simp
  | cons c cs ih =>
    intro desired dels processed hnd hproc
    have hcname : c.name ∉ processed := hproc c (List.mem_cons_self _ _)
    have hcs_nodup : (cs.map Binding.name).Nodup := (List.nodup_cons.mp (by simpa using hnd)).2
    have hc_notin : c.name ∉ cs.map Binding.name := (List.nodup_cons.mp (by simpa using hnd)).1
    simp only [List.foldl_cons]
    show cs.foldl reconcileDesiredStep (reconcileDesiredStep (desired, dels, processed) c) = _
    by_cases hany : desired.any (fun d => decide (d.name = c.name))
    · have hstep : reconcileDesiredStep (desired, dels, processed) c =
          (desired.filter (fun d => !(decide (d.name = c.name))), dels,
            processed ++ [c.name]) := by
        simp [reconcileDesiredStep, hcname, hany]
      rw [hstep, ih _ _ _ hcs_nodup ?side]
      case side =>
        intro x hx
        simp only [List.mem_append, List.mem_singleton]
        rintro (hx' | hx')
        · exact hproc x (List.mem_cons_of_mem _ hx) hx'
        · exact hc_notin (hx' ▸ List.mem_map_of_mem Binding.name hx)
      simp only [Prod.mk.injEq]
      refine ⟨?_, ?_, ?_⟩
      · rw [List.map_cons, filter_not_name_mem_cons]
      · have hhead : (c :: cs).filter
            (fun x => !(desired.any (fun d => decide (d.name = x.name)))) =
            cs.filter (fun x => !(desired.any (fun d => decide (d.name = x.name)))) := by
          rw [List.filter_cons]
          simp [hany]
        rw [hhead]
        congr 2
        apply List.filter_congr
        intro x hx
        have hxc : x.name ≠ c.name := by
          intro hxc
          exact hc_notin (hxc ▸ List.mem_map_of_mem Binding.name hx)
        rw [any_filter_ne c.name x.name hxc desired]
      · simp [List.map_cons, List.append_assoc]
    · have hstep : reconcileDesiredStep (desired, dels, processed) c =
          (desired, dels ++ [c.name], processed ++ [c.name]) := by
        simp only [reconcileDesiredStep]
        rw [if_neg hcname, if_neg hany]
      rw [hstep, ih _ _ _ hcs_nodup ?sideB]
      case sideB =>
        intro x hx
        simp only [List.mem_append, List.mem_singleton]
        rintro (hx' | hx')
        · exact hproc x (List.mem_cons_of_mem _ hx) hx'
        · exact hc_notin (hx' ▸ List.mem_map_of_mem Binding.name hx)
      have hnomatch : ∀ d ∈ desired, ¬ d.name = c.name := by
        intro d hd hdc
        exact hany (List.any_eq_true.mpr ⟨d, hd, decide_eq_true hdc⟩)
      simp only [Prod.mk.injEq]
      refine ⟨?_, ?_, ?_⟩
      · rw [List.map_cons, filter_not_mem_cons_of_no_match c.name _ _ hnomatch]
      · have hhead : (c :: cs).filter
            (fun x => !(desired.any (fun d => decide (d.name = x.name)))) =
            c :: cs.filter (fun x => !(desired.any (fun d => decide (d.name = x.name)))) := by
          rw [List.filter_cons]
          simp [hany]
        rw [hhead, List.map_cons, List.append_assoc]
        rfl
      · simp [List.map_cons, List.append_assoc]

/-- C5: the role-binding diff deletes exactly the names in current but
not in desired, creates exactly the bindings whose names are in desired
but not in current (an AlreadyExists answer on a create being tolerated),
and issues no write for names present in both (a name found in both is
removed from the desired map and never marked for deletion). -/
theorem reconcileDesiredMGMTPlaneRoleBindings_diff
    (currentRBs desiredRBs : List Binding)
    (hnd : (currentRBs.map Binding.name).Nodup) :
    (∀ b : Binding,
        b ∈ (reconcileDesiredMGMTPlaneRoleBindings currentRBs desiredRBs).1 ↔
          b ∈ desiredRBs ∧ b.name ∉ currentRBs.map Binding.name) ∧
    (∀ n : String,
        n ∈ (reconcileDesiredMGMTPlaneRoleBindings currentRBs desiredRBs).2 ↔
          n ∈ currentRBs.map Binding.name ∧ ∀ d ∈ desiredRBs, d.name ≠ n) := by
  have h := reconcileDesired_foldl currentRBs desiredRBs [] [] hnd (by simp)
  constructor
  · intro b
    simp only [reconcileDesiredMGMTPlaneRoleBindings, h, List.mem_filter,
      Bool.not_eq_true', decide_eq_false_iff_not]
  · intro n
    simp only [reconcileDesiredMGMTPlaneRoleBindings, h, List.nil_append,
      List.mem_map, List.mem_filter, Bool.not_eq_true', List.any_eq_false,
      decide_eq_false_iff_not, decide_eq_true_eq]
    constructor
    · rintro ⟨c, ⟨hc, hno⟩, rfl⟩
      exact ⟨⟨c, hc, rfl⟩, fun d hd => hno d hd⟩
    · rintro ⟨⟨c, hc, rfl⟩, hno⟩
      exact ⟨c, ⟨hc, fun d hd => hno d hd⟩, rfl⟩

/-- Desired binding `a-viewer` of the C5 scenario. -/
def c5DesiredA : Binding :=
  { name := "a-viewer", labels := [], subjects := [], roleRefName := "viewer" }

/-- Desired binding `b-viewer` of the C5 scenario. -/
def c5DesiredB : Binding :=
  { name := "b-viewer", labels := [], subjects := [], roleRefName := "viewer" }

/-- Current binding `c-viewer` of the C5 scenario. -/
def c5CurrentC : Binding :=
  { name := "c-viewer", labels := [], subjects := [], roleRefName := "viewer" }

/-- Witness for C5: the spec scenario with desired `{a-viewer, b-viewer}`
and current `{a-viewer, c-viewer}`. -/
theorem reconcileDesiredMGMTPlaneRoleBindings_diff_witness :
    (∀ b : Binding,
        b ∈ (reconcileDesiredMGMTPlaneRoleBindings [c5DesiredA, c5CurrentC]
              [c5DesiredA, c5DesiredB]).1 ↔
          b ∈ [c5DesiredA, c5DesiredB] ∧
            b.name ∉ [c5DesiredA, c5CurrentC].map Binding.name) ∧
    (∀ n : String,
        n ∈ (reconcileDesiredMGMTPlaneRoleBindings [c5DesiredA, c5CurrentC]
              [c5DesiredA, c5DesiredB]).2 ↔
          n ∈ [c5DesiredA, c5CurrentC].map Binding.name ∧
            ∀ d ∈ [c5DesiredA, c5DesiredB], d.name ≠ n) :=
  reconcileDesiredMGMTPlaneRoleBindings_diff [c5DesiredA, c5CurrentC]
    [c5DesiredA, c5DesiredB] (by decide)

/-! ## C2: reconcileManagementPlaneRole / buildRule -/

/-- `buildRule` (manager.go:792-802); the verb map is flattened to a list. -/
def buildRule (resource : String) (verbs : List String) : PolicyRule :=
  { apiGroups := ["*"], resources := [resource], resourceNames := [], verbs := verbs }

/-- The `currentVerbs` computation of `reconcileManagementPlaneRole`
(manager.go:725-732): union of the verbs of every rule of the fetched
role that lists the resource. -/
def currentVerbsFor (rules : List PolicyRule) (resource : String) : List String :=
  (rules.filter (fun rule => decide (resource ∈ rule.resources))).foldl
    (fun acc rule => acc ++ rule.verbs) []

/-- `reflect.DeepEqual` on two `map[string]bool` verb sets
(manager.go:734): equality of the key sets. -/
def sameVerbSet (a b : List String) : Bool :=
  a.all (fun v => decide (v ∈ b)) && b.all (fun v => decide (v ∈ a))

/-- The replacement walk of `reconcileManagementPlaneRole`
(manager.go:737-746): every rule of the accumulated role that lists the
resource is replaced by `buildRule`, and when none lists it the built rule
is appended. -/
def replaceOrAppend (rules : List PolicyRule) (resource : String)
    (newVerbs : List String) : List PolicyRule :=
  if rules.any (fun rule => decide (resource ∈ rule.resources)) then
    rules.map (fun rule =>
      if resource ∈ rule.resources then buildRule resource newVerbs else rule)
  else rules ++ [buildRule resource newVerbs]

/-- The resource loop of the update path of `reconcileManagementPlaneRole`
(manager.go:724-749): `currentVerbs` is always computed against the
originally fetched role's rules, while replacements accumulate in
`newRole`. -/
def reconcileRoleRulesAux (origRules : List PolicyRule) :
    List (String × List String) → List PolicyRule → List PolicyRule
  | [], newRules => newRules
  | rv :: rest, newRules =>
    if sameVerbSet (currentVerbsFor origRules rv.1) rv.2 then
      reconcileRoleRulesAux origRules rest newRules
    else
      reconcileRoleRulesAux origRules rest (replaceOrAppend newRules rv.1 rv.2)

/-- `reconcileManagementPlaneRole` (manager.go:719-774): the staged
resource-to-verbs map updates the fetched role in place, or a fresh role
is created with one built rule per staged resource (an AlreadyExists
answer on the create being tolerated).  The role left in the store is
returned. -/
def reconcileManagementPlaneRole (existing : Option MgmtRole) (rtName : String)
    (resourceToVerbs : List (String × List String)) : MgmtRole :=
  match existing with
  | some role =>
    { role with rules := reconcileRoleRulesAux role.rules resourceToVerbs role.rules }
  | none => { name := rtName, rules := resourceToVerbs.map (fun rv => buildRule rv.1 rv.2) }

/-! ## Theorems for C2 -/

theorem mem_foldl_append (v : String) (l : List PolicyRule) (acc : List String) :
    v ∈ l.foldl (fun a rule => a ++ rule.verbs) acc ↔
      v ∈ acc ∨ ∃ rule ∈ l, v ∈ rule.verbs := by
  induction l generalizing acc with
  | nil => simp
  | cons r rs ih =>
    simp only [List.foldl_cons, ih, List.mem_append, List.mem_cons]
    constructor
    · rintro ((h | h) | ⟨rule, hrule, hv⟩)
      · exact Or.inl h
      · exact Or.inr ⟨r, Or.inl rfl, h⟩
      · exact Or.inr ⟨rule, Or.inr hrule, hv⟩
    · rintro (h | ⟨rule, rfl | hrule, hv⟩)
      · exact Or.inl (Or.inl h)
      · exact Or.inl (Or.inr hv)
      · exact Or.inr ⟨rule, hrule, hv⟩

theorem mem_currentVerbsFor (rules : List PolicyRule) (r v : String) :
    v ∈ currentVerbsFor rules r ↔
      ∃ rule ∈ rules, r ∈ rule.resources ∧ v ∈ rule.verbs := by
  rw [currentVerbsFor, mem_foldl_append]
  simp [List.mem_filter, and_assoc]

theorem currentVerbsFor_congr {rules₁ rules₂ : List PolicyRule} {r : String}
    (h : rules₁.filter (fun rule => decide (r ∈ rule.resources)) =
      rules₂.filter (fun rule => decide (r ∈ rule.resources))) :
    currentVerbsFor rules₁ r = currentVerbsFor rules₂ r := by
  rw [currentVerbsFor, currentVerbsFor, h]

theorem sameVerbSet_true_iff (a b : List String) :
    sameVerbSet a b = true ↔ ∀ v, v ∈ a ↔ v ∈ b := by
  simp only [sameVerbSet, Bool.and_eq_true, List.all_eq_true, decide_eq_true_eq]
  constructor
  · rintro ⟨h1, h2⟩ v
    exact ⟨fun hv => h1 v hv, fun hv => h2 v hv⟩
  · intro h
    exact ⟨fun v hv => (h v).mp hv, fun v hv => (h v).mpr hv⟩

theorem resources_eq_single {rule : PolicyRule} {r : String}
    (hlen : rule.resources.length ≤ 1) (hmem : r ∈ rule.resources) :
    rule.resources = [r] := by
  rcases hrule : rule.resources with _ | ⟨a, _ | ⟨b, rest⟩⟩
  · rw [hrule] at hmem
    cases hmem
  · rw [hrule] at hmem
    rcases List.mem_singleton.mp hmem with rfl
    rfl
  · rw [hrule] at hlen
    simp at hlen

theorem replaceOrAppend_single {rules : List PolicyRule} (r : String)
    (vs : List String) (h : ∀ rule ∈ rules, rule.resources.length ≤ 1) :
    ∀ rule ∈ replaceOrAppend rules r vs, rule.resources.length ≤ 1 := by
  intro rule hmem
  rw [replaceOrAppend] at hmem
  by_cases hany : rules.any (fun rule => decide (r ∈ rule.resources))
  · rw [if_pos hany] at hmem
    rcases List.mem_map.mp hmem with ⟨orig, horig, rfl⟩
    by_cases hc : r ∈ orig.resources
    · simp [hc, buildRule]
    · simpa [hc] using h orig horig
  · rw [if_neg hany] at hmem
    rcases List.mem_append.mp hmem with hmem' | hmem'
    · exact h rule hmem'
    · rcases List.mem_singleton.mp hmem' with rfl
      simp [buildRule]

theorem map_replace_filter_ne (rules : List PolicyRule) (r r' : String)
    (vs : List String)
    (hsingle : ∀ rule ∈ rules, rule.resources.length ≤ 1) (hne : r' ≠ r) :
    (rules.map (fun rule =>
        if r ∈ rule.resources then buildRule r vs else rule)).filter
        (fun rule => decide (r' ∈ rule.resources)) =
      rules.filter (fun rule => decide (r' ∈ rule.resources)) := by
  induction rules with
  | nil => rfl
  | cons rule rest ih =>
    have hrest : ∀ ru ∈ rest, ru.resources.length ≤ 1 :=
      fun ru hru => hsingle ru (List.mem_cons_of_mem _ hru)
    rw [List.map_cons, List.filter_cons, List.filter_cons]
    by_cases hc : r ∈ rule.resources
    · have hres : rule.resources = [r] :=
        resources_eq_single (hsingle rule (List.mem_cons_self _ _)) hc
      have h1 : decide (r' ∈ (buildRule r vs).resources) = false := by
        simp [buildRule, hne]
      have h2 : decide (r' ∈ rule.resources) = false := by
        rw [hres]
        simp [hne]
      rw [if_pos hc, h1, h2]
      simp only [Bool.false_eq_true, if_false]
      exact ih hrest
    · rw [if_neg hc]
      by_cases hc' : r' ∈ rule.resources
      · simp only [hc', decide_True, if_true]
        rw [ih hrest]
      · simp only [hc', decide_False, Bool.false_eq_true, if_false]
        exact ih hrest

theorem replaceOrAppend_filter_ne {rules : List PolicyRule} {r r' : String}
    (vs : List String)
    (hsingle : ∀ rule ∈ rules, rule.resources.length ≤ 1) (hne : r' ≠ r) :
    (replaceOrAppend rules r vs).filter (fun rule => decide (r' ∈ rule.resources)) =
      rules.filter (fun rule => decide (r' ∈ rule.resources)) := by
  rw [replaceOrAppend]
  by_cases hany : rules.any (fun rule => decide (r ∈ rule.resources))
  · rw [if_pos hany]
    exact map_replace_filter_ne rules r r' vs hsingle hne
  · rw [if_neg hany, List.filter_append]
    have : ¬ r' ∈ (buildRule r vs).resources := by
      simp [buildRule, hne]
    simp [this]

theorem mem_currentVerbsFor_replaceOrAppend (rules : List PolicyRule)
    (r : String) (vs : List String) (v : String) :
    v ∈ currentVerbsFor (replaceOrAppend rules r vs) r ↔ v ∈ vs := by
  rw [mem_currentVerbsFor, replaceOrAppend]
  by_cases hany : rules.any (fun rule => decide (r ∈ rule.resources))
  · rw [if_pos hany]
    constructor
    · rintro ⟨rule, hmem, hres, hv⟩
      rcases List.mem_map.mp hmem with ⟨orig, horig, rfl⟩
      by_cases hc : r ∈ orig.resources
      · rw [if_pos hc] at hv
        simpa [buildRule] using hv
      · rw [if_neg hc] at hres
        exact absurd hres hc
    · intro hv
      rcases List.any_eq_true.mp hany with ⟨rule, hrule, hr⟩
      rw [decide_eq_true_eq] at hr
      refine ⟨buildRule r vs, List.mem_map.mpr ⟨rule, hrule, by rw [if_pos hr]⟩,
        by simp [buildRule], hv⟩
  · rw [if_neg hany]
    constructor
    · rintro ⟨rule, hmem, hres, hv⟩
      rcases List.mem_append.mp hmem with h | h
      · exact absurd (List.any_eq_true.mpr ⟨rule, h, decide_eq_true hres⟩) hany
      · rcases List.mem_singleton.mp h with rfl
        exact hv
    · intro hv
      exact ⟨buildRule r vs, List.mem_append.mpr (Or.inr (List.mem_singleton.mpr rfl)),
        by simp [buildRule], hv⟩

theorem reconcileRoleRulesAux_single (origRules : List PolicyRule) :
    ∀ (rtv : List (String × List String)) (acc : List PolicyRule),
      (∀ rule ∈ acc, rule.resources.length ≤ 1) →
      ∀ rule ∈ reconcileRoleRulesAux origRules rtv acc, rule.resources.length ≤ 1 := by
  intro rtv
  induction rtv with
  | nil => intro acc h; simpa [reconcileRoleRulesAux] using h
  | cons rv rest ih =>
    intro acc h
    rw [reconcileRoleRulesAux]
    by_cases hsame : sameVerbSet (currentVerbsFor origRules rv.1) rv.2
    · rw [if_pos hsame]
      exact ih acc h
    · rw [if_neg hsame]
      exact ih _ (replaceOrAppend_single rv.1 rv.2 h)

theorem reconcileRoleRulesAux_filter_untouched (origRules : List PolicyRule) :
    ∀ (rtv : List (String × List String)) (acc : List PolicyRule) (r : String),
      (∀ rule ∈ acc, rule.resources.length ≤ 1) →
      r ∉ rtv.map Prod.fst →
      (reconcileRoleRulesAux origRules rtv acc).filter
          (fun rule => decide (r ∈ rule.resources)) =
        acc.filter (fun rule => decide (r ∈ rule.resources)) := by
  intro rtv
  induction rtv with
  | nil => intro acc r _ _; rfl
  | cons rv rest ih =>
    intro acc r hs hr
    have hrrest : r ∉ rest.map Prod.fst := fun h => hr (by simp [h])
    have hrne : r ≠ rv.1 := fun h => hr (by simp [h])
    rw [reconcileRoleRulesAux]
    by_cases hsame : sameVerbSet (currentVerbsFor origRules rv.1) rv.2
    · rw [if_pos hsame]
      exact ih acc r hs hrrest
    · rw [if_neg hsame]
      rw [ih _ r (replaceOrAppend_single rv.1 rv.2 hs) hrrest]
      exact replaceOrAppend_filter_ne rv.2 hs hrne

theorem reconcileRoleRulesAux_exact (origRules : List PolicyRule) :
    ∀ (rtv : List (String × List String)) (acc : List PolicyRule),
      (∀ rule ∈ acc, rule.resources.length ≤ 1) →
      (rtv.map Prod.fst).Nodup →
      (∀ rv ∈ rtv, acc.filter (fun rule => decide (rv.1 ∈ rule.resources)) =
        origRules.filter (fun rule => decide (rv.1 ∈ rule.resources))) →
      ∀ rv ∈ rtv, ∀ v,
        (v ∈ currentVerbsFor (reconcileRoleRulesAux origRules rtv acc) rv.1 ↔
          v ∈ rv.2) := by
  intro rtv
  induction rtv with
  | nil =>
    intro acc _ _ _ rv hrv
    cases hrv
  | cons rv0 rest ih =>
    intro acc hs hnd hfil rv hrv v
    have hr0rest : rv0.1 ∉ rest.map Prod.fst := (List.nodup_cons.mp (by simpa using hnd)).1
    have hndrest : (rest.map Prod.fst).Nodup := (List.nodup_cons.mp (by simpa using hnd)).2
    rw [reconcileRoleRulesAux]
    by_cases hsame : sameVerbSet (currentVerbsFor origRules rv0.1) rv0.2
    · rw [if_pos hsame]
      rcases List.mem_cons.mp hrv with rfl | hrvrest
      · have hfil0 := hfil rv (List.mem_cons_self _ _)
        have huntouched :=
          reconcileRoleRulesAux_filter_untouched origRules rest acc rv.1 hs hr0rest
        rw [currentVerbsFor_congr (huntouched.trans hfil0)]
        exact (sameVerbSet_true_iff _ _).mp hsame v
      · exact ih acc hs hndrest
          (fun rv' hrv' => hfil rv' (List.mem_cons_of_mem _ hrv')) rv hrvrest v
    · rw [if_neg hsame]
      have hs' := replaceOrAppend_single rv0.1 rv0.2 hs
      rcases List.mem_cons.mp hrv with rfl | hrvrest
      · have huntouched :=
          reconcileRoleRulesAux_filter_untouched origRules rest _ rv.1 hs' hr0rest
        rw [currentVerbsFor_congr huntouched]
        exact mem_currentVerbsFor_replaceOrAppend acc rv.1 rv.2 v
      · refine ih _ hs' hndrest ?_ rv hrvrest v
        intro rv' hrv'
        have hne : rv'.1 ≠ rv0.1 :=
          fun h => hr0rest (h ▸ List.mem_map_of_mem Prod.fst hrv')
        rw [replaceOrAppend_filter_ne rv0.2 hs hne]
        exact hfil rv' (List.mem_cons_of_mem _ hrv')

/-- Pre-existing role of the C2 counterexample: one rule covers the two
resources `a` and `b` at once, a second rule covers `b` alone. -/
def c2ExistingRole : MgmtRole :=
  { name := "tmplA"
    rules := [{ apiGroups := ["*"], resources := ["a", "b"], resourceNames := [],
                verbs := ["get"] },
              { apiGroups := ["*"], resources := ["b"], resourceNames := [],
                verbs := ["list"] }] }

/-- Staged resource-to-verbs map of the C2 counterexample. -/
def c2Staged : List (String × List String) :=
  [("a", ["get", "watch"]), ("b", ["get", "list"])]

/-- C2, counterexample: on a pre-existing role holding a rule that lists
two resources, one reconciliation pass leaves resource `b` with the verb
set `{list}`, a strict subset of the staged set `{get, list}`: replacing
the shared rule for `a` silently drops `b` from it, and `b` itself is
skipped because its staged verbs still equal the verbs of the originally
fetched rules. -/
theorem reconcileManagementPlaneRole_strict_subset_counterexample :
    ("b", ["get", "list"]) ∈ c2Staged ∧
    "get" ∈ ["get", "list"] ∧
    "get" ∉ currentVerbsFor
      (reconcileManagementPlaneRole (some c2ExistingRole) "tmplA" c2Staged).rules
      "b" := by
  refine ⟨by decide, by decide, by decide⟩

/-- C2 (amended): provided every rule of the pre-existing role lists at
most one resource — true of every role this reconciler itself writes,
since `buildRule` emits single-resource rules — a reconciliation pass
leaves, for every staged resource, exactly the staged verb set (the union
over the applicable role templates): never a strict superset nor a strict
subset; the same holds when the role is freshly created. -/
theorem reconcileManagementPlaneRole_exact_verbs
    (existing : Option MgmtRole) (rtName : String)
    (resourceToVerbs : List (String × List String))
    (hsingle : ∀ role, existing = some role →
      ∀ rule ∈ role.rules, rule.resources.length ≤ 1)
    (hkeys : (resourceToVerbs.map Prod.fst).Nodup) :
    ∀ rv ∈ resourceToVerbs, ∀ v,
      (v ∈ currentVerbsFor
          (reconcileManagementPlaneRole existing rtName resourceToVerbs).rules
          rv.1 ↔ v ∈ rv.2) := by
  intro rv hrv v
  cases existing with
  | some role =>
    exact reconcileRoleRulesAux_exact role.rules resourceToVerbs role.rules
      (hsingle role rfl) hkeys (fun _ _ => rfl) rv hrv v
  | none =>
    rw [show (reconcileManagementPlaneRole none rtName resourceToVerbs).rules =
      resourceToVerbs.map (fun rv => buildRule rv.1 rv.2) from rfl]
    rw [mem_currentVerbsFor]
    constructor
    · rintro ⟨rule, hmem, hres, hv⟩
      rcases List.mem_map.mp hmem with ⟨rv', hrv', rfl⟩
      have h1 : rv.1 = rv'.1 := by simpa [buildRule] using hres
      have heq : rv' = rv := List.inj_on_of_nodup_map hkeys hrv' hrv h1.symm
      rw [← heq]
      simpa [buildRule] using hv
    · intro hv
      exact ⟨buildRule rv.1 rv.2, List.mem_map_of_mem _ hrv, by simp [buildRule], hv⟩

/-- Witness for C2 at a concrete input: a freshly created role for a
single staged resource. -/
theorem reconcileManagementPlaneRole_exact_verbs_witness :
    "get" ∈ currentVerbsFor
        (reconcileManagementPlaneRole none "tmplB" [("a", ["get"])]).rules "a"
      ↔ "get" ∈ ["get"] :=
  reconcileManagementPlaneRole_exact_verbs none "tmplB" [("a", ["get"])]
    (fun role h => by cases h) (by decide) ("a", ["get"]) (by decide) "get"

/-! ## C8: grantManagementClusterScopedPrivilegesInProjectNamespace -/

/-- The per-role staging loop of
`grantManagementClusterScopedPrivilegesInProjectNamespace`
(manager.go:513-546): walk the caller-supplied (resource, apiGroup) map,
skipping the shared catalog resources for non-Administrative templates;
every resource yielding verbs is staged, and the flag records whether a
desired role binding for this role was staged. -/
def stageClusterScopedRole (clusterRoles : List MgmtRole) (role : RoleTemplate)
    (resources : List (String × String)) : List (String × List String) × Bool :=
  resources.foldl (fun acc rg =>
    if role.administrative = false ∧ rg.1 ∈ commonClusterAndProjectMgmtPlaneResources then
      acc
    else
      let verbs := checkForManagementPlaneRules clusterRoles role rg.1 rg.2
      if verbs = [] then acc else (acc.1 ++ [(rg.1, verbs)], true)) ([], false)

/-- Spec-side comparator for C8: the identical staging loop without the
common-resource skip — the way `grantManagementPlanePrivileges`
(manager.go:449-486) processes a role. -/
def stageRoleNoFilter (clusterRoles : List MgmtRole) (role : RoleTemplate)
    (resources : List (String × String)) : List (String × List String) × Bool :=
  resources.foldl (fun acc rg =>
    let verbs := checkForManagementPlaneRules clusterRoles role rg.1 rg.2
    if verbs = [] then acc else (acc.1 ++ [(rg.1, verbs)], true)) ([], false)

theorem stageClusterScopedRole_foldl_aux (clusterRoles : List MgmtRole)
    (role : RoleTemplate) (hadm : role.administrative = false) :
    ∀ (resources : List (String × String)) (acc : List (String × List String) × Bool),
      resources.foldl (fun acc rg =>
        if role.administrative = false ∧ rg.1 ∈ commonClusterAndProjectMgmtPlaneResources then
          acc
        else
          let verbs := checkForManagementPlaneRules clusterRoles role rg.1 rg.2
          if verbs = [] then acc else (acc.1 ++ [(rg.1, verbs)], true)) acc =
      (resources.filter (fun rg =>
          !(decide (rg.1 ∈ commonClusterAndProjectMgmtPlaneResources)))).foldl
        (fun acc rg =>
          let verbs := checkForManagementPlaneRules clusterRoles role rg.1 rg.2
          if verbs = [] then acc else (acc.1 ++ [(rg.1, verbs)], true)) acc := by
  intro resources
  induction resources with
  | nil => intro acc; rfl
  | cons rg rest ih =>
    intro acc
    by_cases hcommon : rg.1 ∈ commonClusterAndProjectMgmtPlaneResources
    · rw [List.foldl_cons, if_pos ⟨hadm, hcommon⟩, List.filter_cons,
        if_neg (by simp [hcommon])]
      exact ih acc
    · have hfilter : (!decide (rg.1 ∈ commonClusterAndProjectMgmtPlaneResources)) = true := by
        simp [hcommon]
      rw [List.foldl_cons, if_neg (fun h => hcommon h.2), List.filter_cons, hfilter,
        if_pos rfl, List.foldl_cons]
      exact ih _

theorem stageClusterScopedRole_foldl_admin (clusterRoles : List MgmtRole)
    (role : RoleTemplate) (hadm : role.administrative = true) :
    ∀ (resources : List (String × String)) (acc : List (String × List String) × Bool),
      resources.foldl (fun acc rg =>
        if role.administrative = false ∧ rg.1 ∈ commonClusterAndProjectMgmtPlaneResources then
          acc
        else
          let verbs := checkForManagementPlaneRules clusterRoles role rg.1 rg.2
          if verbs = [] then acc else (acc.1 ++ [(rg.1, verbs)], true)) acc =
      resources.foldl (fun acc rg =>
        let verbs := checkForManagementPlaneRules clusterRoles role rg.1 rg.2
        if verbs = [] then acc else (acc.1 ++ [(rg.1, verbs)], true)) acc := by
  intro resources
  induction resources with
  | nil => intro acc; rfl
  | cons rg rest ih =>
    intro acc
    rw [List.foldl_cons, List.foldl_cons, if_neg (by simp [hadm])]
    exact ih _

/-- C8: for a non-Administrative role template, the shared catalog
resources are skipped entirely — the staging equals the unfiltered loop
run on the resource map with those resources removed (they contribute no
verb entry and no desired role binding); for an Administrative template
the staging equals the unfiltered loop on the full map, i.e. the shared
resources are processed like any other. -/
theorem grantClusterScopedInProjectNamespace_skips_common_resources
    (clusterRoles : List MgmtRole) (role : RoleTemplate)
    (resources : List (String × String)) :
    stageClusterScopedRole clusterRoles role resources =
      stageRoleNoFilter clusterRoles role
        (if role.administrative then resources
         else resources.filter (fun rg =>
           !(decide (rg.1 ∈ commonClusterAndProjectMgmtPlaneResources)))) := by
  rcases hadm : role.administrative with _ | _
  · rw [if_neg (by simp [hadm])]
    exact stageClusterScopedRole_foldl_aux clusterRoles role hadm resources ([], false)
  · rw [if_pos (by simp [hadm])]
    exact stageClusterScopedRole_foldl_admin clusterRoles role hadm resources ([], false)

/-! ## C6: checkReferencedRoles -/

/-- `rtLister.Get("", name)`: fetch a role template by name from the
store (the spec's NotFound condition when absent). -/
def getRoleTemplate (store : List RoleTemplate) (name : String) :
    Option RoleTemplate :=
  store.find? (fun rt => decide (rt.name = name))

/-- The two hard-coded builtin-owner tests of `checkReferencedRoles`
(manager.go:815-820), applied to the template fetched for a given lookup
name. -/
def ownerExceptionAt (roleTemplateName : String) (rt : RoleTemplate) : Prop :=
  (rt.builtin = true ∧ rt.context = "project" ∧ roleTemplateName = "project-owner") ∨
  (rt.builtin = true ∧ rt.context = "cluster" ∧ roleTemplateName = "cluster-owner")

instance (roleTemplateName : String) (rt : RoleTemplate) :
    Decidable (ownerExceptionAt roleTemplateName rt) := by
  unfold ownerExceptionAt
  infer_instance

/-- The rule walk of `checkReferencedRoles` (manager.go:822-828): some
rule lists the project or cluster pseudo-resource and carries the
`"own"` verb. -/
def hasOwnRule (rt : RoleTemplate) : Bool :=
  rt.rules.any (fun rule =>
    (decide (projectResource ∈ rule.resources) || decide (clusterResource ∈ rule.resources)) &&
    decide ("own" ∈ rule.verbs))

/-- The sequential loop of `checkReferencedRoles` over the inherited
template names (manager.go:831-842): an error aborts, `true`
short-circuits, and a completed loop yields the last (false) answer. -/
def checkReferencedList (f : String → Option (Except String Bool)) :
    List String → Option (Except String Bool)
  | [] => some (Except.ok false)
  | n :: rest =>
    match f n with
    | none => none
    | some (Except.error e) => some (Except.error e)
    | some (Except.ok true) => some (Except.ok true)
    | some (Except.ok false) => checkReferencedList f rest

/-- `checkReferencedRoles` (manager.go:804-844), with `fuel` bounding the
recursion depth (the Go original recurses unboundedly; `none` models the
fuel running out, which never happens on the acyclic stores the system
builds). -/
def checkReferencedRoles (store : List RoleTemplate) :
    Nat → String → Option (Except String Bool)
  | 0, _ => none
  | fuel + 1, roleTemplateName =>
    match getRoleTemplate store roleTemplateName with
    | none => some (Except.error ("couldn't get RoleTemplate " ++ roleTemplateName))
    | some roleTemplate =>
      if roleTemplate.builtin = true ∧ roleTemplate.context = "project"
          ∧ roleTemplateName = "project-owner" then
        some (Except.ok true)
      else if roleTemplate.builtin = true ∧ roleTemplate.context = "cluster"
          ∧ roleTemplateName = "cluster-owner" then
        some (Except.ok true)
      else if hasOwnRule roleTemplate then
        some (Except.ok true)
      else
        checkReferencedList (checkReferencedRoles store fuel)
          roleTemplate.roleTemplateNames

/-- The templates reachable by the inheritance walk from a root lookup
name, each paired with the name it was looked up by. -/
inductive ReachableFrom (store : List RoleTemplate) (root : String) :
    String → RoleTemplate → Prop where
  | root : ∀ {rt}, getRoleTemplate store root = some rt →
      ReachableFrom store root root rt
  | step : ∀ {m rt m' rt'}, ReachableFrom store root m rt →
      m' ∈ rt.roleTemplateNames → getRoleTemplate store m' = some rt' →
      ReachableFrom store root m' rt'

theorem ReachableFrom_mem_store {store : List RoleTemplate} {root m : String}
    {rt : RoleTemplate} (h : ReachableFrom store root m rt) : rt ∈ store := by
  induction h with
  | root hfind => exact List.mem_of_find?_eq_some hfind
  | step _ _ hfind _ => exact List.mem_of_find?_eq_some hfind

theorem ReachableFrom_lift {store : List RoleTemplate} {root p n m : String}
    {rtP rt : RoleTemplate} (hroot : ReachableFrom store root p rtP)
    (hn : n ∈ rtP.roleTemplateNames) (h : ReachableFrom store n m rt) :
    ReachableFrom store root m rt := by
  induction h with
  | root hfind => exact ReachableFrom.step hroot hn hfind
  | step _ hmem hfind ih => exact ReachableFrom.step ih hmem hfind

theorem ReachableFrom_decompose {store : List RoleTemplate} {root m : String}
    {rt : RoleTemplate} (h : ReachableFrom store root m rt) :
    (m = root ∧ getRoleTemplate store root = some rt) ∨
    (∃ rt0 n, getRoleTemplate store root = some rt0 ∧
      n ∈ rt0.roleTemplateNames ∧ ReachableFrom store n m rt) := by
  induction h with
  | root hfind => exact Or.inl ⟨rfl, hfind⟩
  | step hpre hmem hfind ih =>
    rcases ih with ⟨rfl, hfind0⟩ | ⟨rt0, n, hfind0, hmem0, hreach⟩
    · exact Or.inr ⟨_, _, hfind0, hmem, ReachableFrom.root hfind⟩
    · exact Or.inr ⟨rt0, n, hfind0, hmem0, ReachableFrom.step hreach hmem hfind⟩

theorem checkReferencedList_ok_false
    {f : String → Option (Except String Bool)} :
    ∀ {l : List String}, checkReferencedList f l = some (Except.ok false) →
      ∀ n ∈ l, f n = some (Except.ok false) := by
  intro l
  induction l with
  | nil => intro _ n hn; cases hn
  | cons n rest ih =>
    intro h n' hn'
    rw [checkReferencedList] at h
    rcases hfn : f n with _ | e
    · rw [hfn] at h; cases h
    · rcases e with e | b
      · rw [hfn] at h; cases h
      · rcases b with _ | _
        · rw [hfn] at h
          rcases List.mem_cons.mp hn' with rfl | hn''
          · exact hfn
          · exact ih h n' hn''
        · rw [hfn] at h
          cases h

theorem checkReferencedList_ok_true
    {f : String → Option (Except String Bool)} :
    ∀ {l : List String}, checkReferencedList f l = some (Except.ok true) →
      ∃ n ∈ l, f n = some (Except.ok true) := by
  intro l
  induction l with
  | nil => intro h; cases h
  | cons n rest ih =>
    intro h
    rw [checkReferencedList] at h
    rcases hfn : f n with _ | e
    · rw [hfn] at h; cases h
    · rcases e with e | b
      · rw [hfn] at h; cases h
      · rcases b with _ | _
        · rw [hfn] at h
          rcases ih h with ⟨n', hn', hfn'⟩
          exact ⟨n', List.mem_cons_of_mem _ hn', hfn'⟩
        · exact ⟨n, List.mem_cons_self _ _, hfn⟩

theorem checkReferencedRoles_true_grant (store : List RoleTemplate) :
    ∀ (fuel : Nat) (name : String),
      checkReferencedRoles store fuel name = some (Except.ok true) →
      ∃ m rt, ReachableFrom store name m rt ∧
        (ownerExceptionAt m rt ∨ hasOwnRule rt = true) := by
  intro fuel
  induction fuel with
  | zero =>
    intro name h
    simp [checkReferencedRoles] at h
  | succ fuel ih =>
    intro name h
    rw [checkReferencedRoles] at h
    rcases hlook : getRoleTemplate store name with _ | rt0 <;> simp only [hlook] at h
    · simp at h
    · by_cases h1 : rt0.builtin = true ∧ rt0.context = "project" ∧ name = "project-owner"
      · exact ⟨name, rt0, ReachableFrom.root hlook, Or.inl (Or.inl h1)⟩
      · rw [if_neg h1] at h
        by_cases h2 : rt0.builtin = true ∧ rt0.context = "cluster" ∧ name = "cluster-owner"
        · exact ⟨name, rt0, ReachableFrom.root hlook, Or.inl (Or.inr h2)⟩
        · rw [if_neg h2] at h
          by_cases h3 : hasOwnRule rt0 = true
          · exact ⟨name, rt0, ReachableFrom.root hlook, Or.inr h3⟩
          · rw [if_neg h3] at h
            rcases checkReferencedList_ok_true h with ⟨n, hn, hfn⟩
            rcases ih n hfn with ⟨m, rt', hreach, hgrant⟩
            exact ⟨m, rt', ReachableFrom_lift (ReachableFrom.root hlook) hn hreach,
              hgrant⟩

theorem checkReferencedRoles_false_no_grant (store : List RoleTemplate) :
    ∀ (fuel : Nat) (name : String),
      checkReferencedRoles store fuel name = some (Except.ok false) →
      ∀ m rt, ReachableFrom store name m rt →
        ¬(ownerExceptionAt m rt ∨ hasOwnRule rt = true) := by
  intro fuel
  induction fuel with
  | zero =>
    intro name h
    simp [checkReferencedRoles] at h
  | succ fuel ih =>
    intro name h m rt hreach hgrant
    rw [checkReferencedRoles] at h
    rcases hlook : getRoleTemplate store name with _ | rt0 <;> simp only [hlook] at h
    · simp at h
    · by_cases h1 : rt0.builtin = true ∧ rt0.context = "project" ∧ name = "project-owner"
      · rw [if_pos h1] at h
        simp at h
      · rw [if_neg h1] at h
        by_cases h2 : rt0.builtin = true ∧ rt0.context = "cluster" ∧ name = "cluster-owner"
        · rw [if_pos h2] at h
          simp at h
        · rw [if_neg h2] at h
          by_cases h3 : hasOwnRule rt0 = true
          · rw [if_pos h3] at h
            simp at h
          · rw [if_neg h3] at h
            rcases ReachableFrom_decompose hreach with ⟨rfl, hfind⟩ |
              ⟨rt1, n, hfind1, hmem, hreach'⟩
            · rw [hlook] at hfind
              injection hfind with e
              subst e
              rcases hgrant with hexc | hown
              · rcases hexc with hexc | hexc
                · exact h1 hexc
                · exact h2 hexc
              · exact h3 hown
            · rw [hlook] at hfind1
              injection hfind1 with e
              subst e
              exact ih n (checkReferencedList_ok_false h n hmem) m rt hreach' hgrant

/-- The builtin `project-owner` template of the C6 counterexample: no
rule carries the `own` verb. -/
def c6ProjectOwner : RoleTemplate :=
  { name := "project-owner", rules := [], external := false, builtin := true,
    context := "project", administrative := false, roleTemplateNames := [] }

/-- A non-builtin template inheriting `project-owner`, with no rules. -/
def c6Helper : RoleTemplate :=
  { name := "helper", rules := [], external := false, builtin := false,
    context := "project", administrative := false, roleTemplateNames := ["project-owner"] }

/-- Store of the C6 counterexample. -/
def c6Store : List RoleTemplate := [c6Helper, c6ProjectOwner]

/-- C6, counterexample: `checkReferencedRoles` on `helper` returns true,
although the named template is not itself one of the builtin owner
exceptions and no reachable template (including `helper` itself) carries
an `own`-verb rule on the project or cluster pseudo-resource: the
builtin-owner exception fires on the *inherited* `project-owner`
template, a case the claimed iff does not cover. -/
theorem checkReferencedRoles_counterexample :
    checkReferencedRoles c6Store 2 "helper" = some (Except.ok true) ∧
    (∀ rt, getRoleTemplate c6Store "helper" = some rt →
      ¬ ownerExceptionAt "helper" rt) ∧
    (∀ m rt, ReachableFrom c6Store "helper" m rt → ¬ hasOwnRule rt = true) := by
  refine ⟨rfl, ?_, ?_⟩
  · intro rt h
    injection (show some c6Helper = some rt by rw [← h]; rfl) with e
    rw [← e]
    decide
  · intro m rt h
    have hmem := ReachableFrom_mem_store h
    rcases List.mem_cons.mp hmem with rfl | hmem'
    · decide
    · rcases List.mem_singleton.mp hmem' with rfl
      decide

/-- C6 (amended): a successful `checkReferencedRoles` answer is true iff
some template reachable from the named one through the inheritance walk
(including the named template itself) either is caught by a hard-coded
builtin owner exception (builtin, context `project`/`cluster`, looked up
under the name `project-owner`/`cluster-owner`) or carries a rule listing
the project or cluster pseudo-resource with the `own` verb.  The claim's
restriction of the builtin exception to the named template alone is what
the counterexample refutes. -/
theorem checkReferencedRoles_owner_iff (store : List RoleTemplate) (fuel : Nat)
    (name : String) (b : Bool)
    (h : checkReferencedRoles store fuel name = some (Except.ok b)) :
    b = true ↔ ∃ m rt, ReachableFrom store name m rt ∧
      (ownerExceptionAt m rt ∨ hasOwnRule rt = true) := by
  constructor
  · intro hb
    subst hb
    exact checkReferencedRoles_true_grant store fuel name h
  · rintro ⟨m, rt, hreach, hgrant⟩
    rcases b with _ | _
    · exact absurd hgrant
        (checkReferencedRoles_false_no_grant store fuel name h m rt hreach)
    · rfl

/-- A template with no `own` verb and no inherited templates. -/
def c6Plain : RoleTemplate :=
  { name := "plain", rules := [], external := false, builtin := false,
    context := "project", administrative := false, roleTemplateNames := [] }

/-- Witness for C6 at a concrete input: a plain template with nothing
owner-granting yields a false answer. -/
theorem checkReferencedRoles_owner_iff_witness :
    false = true ↔ ∃ m rt, ReachableFrom [c6Plain] "plain" m rt ∧
      (ownerExceptionAt m rt ∨ hasOwnRule rt = true) :=
  checkReferencedRoles_owner_iff [c6Plain] 1 "plain" false rfl

/-! ## C7: gatherRoleTemplates / gatherAndDedupeRoles -/

/-- Go's `roleTemplates[rt.Name] = rt` on the accumulating map
(manager.go:777), on an association list: overwrite the entry with that
key or append a fresh one. -/
def insertRT (rt : RoleTemplate) (m : List (String × RoleTemplate)) :
    List (String × RoleTemplate) :=
  if m.any (fun p => decide (p.1 = rt.name)) then
    m.map (fun p => if p.1 = rt.name then (rt.name, rt) else p)
  else m ++ [(rt.name, rt)]

/-- The loop of `gatherRoleTemplates` over the inherited names
(manager.go:779-787): a failed fetch aborts with the wrapped NotFound
error, recursion errors propagate, otherwise the accumulated map is
threaded through. -/
def gatherList
    (g : RoleTemplate → List (String × RoleTemplate) →
      Option (Except String (List (String × RoleTemplate))))
    (store : List RoleTemplate) :
    List String → List (String × RoleTemplate) →
      Option (Except String (List (String × RoleTemplate)))
  | [], acc => some (Except.ok acc)
  | n :: rest, acc =>
    match getRoleTemplate store n with
    | none => some (Except.error ("couldn't get RoleTemplate " ++ n))
    | some subRT =>
      match g subRT acc with
      | none => none
      | some (Except.error e) =>
        some (Except.error ("couldn't gather RoleTemplate " ++ n ++ ": " ++ e))
      | some (Except.ok acc') => gatherList g store rest acc'

/-- `gatherRoleTemplates` (manager.go:776-790), with `fuel` bounding the
recursion depth (the Go original recurses unboundedly on cyclic
inheritance; `none` models the fuel running out). -/
def gatherRoleTemplates (store : List RoleTemplate) :
    Nat → RoleTemplate → List (String × RoleTemplate) →
      Option (Except String (List (String × RoleTemplate)))
  | 0, _, _ => none
  | fuel + 1, rt, acc =>
    gatherList (gatherRoleTemplates store fuel) store rt.roleTemplateNames
      (insertRT rt acc)

/-- `gatherAndDedupeRoles` (manager.go:627-643): fetch the root, walk the
graph, then re-key every gathered template by its name. -/
def gatherAndDedupeRoles (store : List RoleTemplate) (fuel : Nat)
    (roleTemplateName : String) :
    Option (Except String (List (String × RoleTemplate))) :=
  match getRoleTemplate store roleTemplateName with
  | none => some (Except.error ("couldn't get RoleTemplate " ++ roleTemplateName))
  | some rt =>
    match gatherRoleTemplates store fuel rt [] with
    | none => none
    | some (Except.error e) => some (Except.error e)
    | some (Except.ok allRoles) =>
      some (Except.ok (allRoles.foldl (fun roles p => insertRT p.2 roles) []))

theorem getRoleTemplate_name {store : List RoleTemplate} {n : String}
    {rt : RoleTemplate} (h : getRoleTemplate store n = some rt) : rt.name = n := by
  rw [getRoleTemplate] at h
  have h2 := List.find?_some h
  simp only [decide_eq_true_eq] at h2
  exact h2

theorem map_id_of_mem {α : Type} (l : List α) (f : α → α)
    (h : ∀ a ∈ l, f a = a) : l.map f = l := by
  induction l with
  | nil => rfl
  | cons a as ih =>
    rw [List.map_cons, h a (List.mem_cons_self _ _),
      ih (fun x hx => h x (List.mem_cons_of_mem _ hx))]

theorem insertRT_of_wf (store : List RoleTemplate) (rt : RoleTemplate)
    (acc : List (String × RoleTemplate))
    (hrt : getRoleTemplate store rt.name = some rt)
    (hwf : ∀ p ∈ acc, getRoleTemplate store p.1 = some p.2) :
    insertRT rt acc =
      if acc.any (fun p => decide (p.1 = rt.name)) then acc
      else acc ++ [(rt.name, rt)] := by
  rw [insertRT]
  by_cases hany : acc.any (fun p => decide (p.1 = rt.name))
  · rw [if_pos hany, if_pos hany]
    apply map_id_of_mem
    intro p hp
    by_cases hkey : p.1 = rt.name
    · rw [if_pos hkey]
      have h1 := hwf p hp
      rw [hkey, hrt] at h1
      injection h1 with e
      exact Prod.ext_iff.mpr ⟨hkey.symm, e⟩
    · rw [if_neg hkey]
  · rw [if_neg hany, if_neg hany]

theorem gather_spec (store : List RoleTemplate) :
    ∀ (fuel : Nat) (rt : RoleTemplate) (acc res : List (String × RoleTemplate)),
      getRoleTemplate store rt.name = some rt →
      (∀ p ∈ acc, getRoleTemplate store p.1 = some p.2) →
      ((acc.map Prod.fst).Nodup) →
      gatherRoleTemplates store fuel rt acc = some (Except.ok res) →
      (∀ p ∈ res, getRoleTemplate store p.1 = some p.2) ∧
      ((res.map Prod.fst).Nodup) ∧
      (∀ t : RoleTemplate, (t.name, t) ∈ res ↔
        ((t.name, t) ∈ acc ∨ ∃ mm, ReachableFrom store rt.name mm t)) ∧
      (∀ mm t, ReachableFrom store rt.name mm t →
        ∀ n' ∈ t.roleTemplateNames, (getRoleTemplate store n').isSome) := by
  intro fuel
  induction fuel with
  | zero =>
    intro rt acc res _ _ _ h
    simp [gatherRoleTemplates] at h
  | succ fuel ihf =>
    have listSpec : ∀ (names : List String) (acc res : List (String × RoleTemplate)),
        (∀ p ∈ acc, getRoleTemplate store p.1 = some p.2) →
        ((acc.map Prod.fst).Nodup) →
        gatherList (gatherRoleTemplates store fuel) store names acc =
          some (Except.ok res) →
        (∀ p ∈ res, getRoleTemplate store p.1 = some p.2) ∧
        ((res.map Prod.fst).Nodup) ∧
        (∀ t : RoleTemplate, (t.name, t) ∈ res ↔
          ((t.name, t) ∈ acc ∨ ∃ n ∈ names, ∃ mm, ReachableFrom store n mm t)) ∧
        (∀ n ∈ names, ∀ mm t, ReachableFrom store n mm t →
          ∀ n' ∈ t.roleTemplateNames, (getRoleTemplate store n').isSome) ∧
        (∀ n ∈ names, (getRoleTemplate store n).isSome) := by
      intro names
      induction names with
      | nil =>
        intro acc res hwf hnd h
        rw [gatherList] at h
        injection h with h'
        injection h' with h''
        subst h''
        refine ⟨hwf, hnd, ?_, ?_, ?_⟩
        · intro t
          simp
        · intro n hn
          cases hn
        · intro n hn
          cases hn
      | cons n rest ihl =>
        intro acc res hwf hnd h
        rw [gatherList] at h
        rcases hlook : getRoleTemplate store n with _ | subRT <;>
          simp only [hlook] at h
        · simp at h
        · rcases hg : gatherRoleTemplates store fuel subRT acc with _ | er <;>
            simp only [hg] at h
          · exact Option.noConfusion h
          · rcases er with e | acc'
            · simp at h
            · have hsubname : subRT.name = n := getRoleTemplate_name hlook
              have hsub' : getRoleTemplate store subRT.name = some subRT := by
                rw [hsubname]
                exact hlook
              obtain ⟨hwf1, hnd1, hmem1, hcond1⟩ := ihf subRT acc acc' hsub' hwf hnd hg
              obtain ⟨hwfR, hndR, hmemR, hcondR, hfetchR⟩ := ihl acc' res hwf1 hnd1 h
              refine ⟨hwfR, hndR, ?_, ?_, ?_⟩
              · intro t
                rw [hmemR t, hmem1 t]
                constructor
                · rintro ((hacc | ⟨mm, hreach⟩) | ⟨n', hn', mm, hreach⟩)
                  · exact Or.inl hacc
                  · exact Or.inr ⟨n, List.mem_cons_self _ _, mm, hsubname ▸ hreach⟩
                  · exact Or.inr ⟨n', List.mem_cons_of_mem _ hn', mm, hreach⟩
                · rintro (hacc | ⟨n', hn', mm, hreach⟩)
                  · exact Or.inl (Or.inl hacc)
                  · rcases List.mem_cons.mp hn' with rfl | hn''
                    · exact Or.inl (Or.inr ⟨mm, hsubname.symm ▸ hreach⟩)
                    · exact Or.inr ⟨n', hn'', mm, hreach⟩
              · intro n' hn' mm t hreach
                rcases List.mem_cons.mp hn' with rfl | hn''
                · exact hcond1 mm t (hsubname.symm ▸ hreach)
                · exact hcondR n' hn'' mm t hreach
              · intro n' hn'
                rcases List.mem_cons.mp hn' with rfl | hn''
                · rw [hlook]
                  rfl
                · exact hfetchR n' hn''
    intro rt acc res hrt hwf hnd h
    rw [gatherRoleTemplates] at h
    have hins := insertRT_of_wf store rt acc hrt hwf
    have hwfI : ∀ p ∈ insertRT rt acc, getRoleTemplate store p.1 = some p.2 := by
      rw [hins]
      by_cases hany : acc.any (fun p => decide (p.1 = rt.name))
      · rw [if_pos hany]
        exact hwf
      · rw [if_neg hany]
        intro p hp
        rcases List.mem_append.mp hp with hp' | hp'
        · exact hwf p hp'
        · rcases List.mem_singleton.mp hp' with rfl
          exact hrt
    have hndI : ((insertRT rt acc).map Prod.fst).Nodup := by
      rw [hins]
      by_cases hany : acc.any (fun p => decide (p.1 = rt.name))
      · rw [if_pos hany]
        exact hnd
      · rw [if_neg hany]
        have hnotin : rt.name ∉ acc.map Prod.fst := by
          intro hmem
          rcases List.mem_map.mp hmem with ⟨p, hp, he⟩
          exact hany (List.any_eq_true.mpr ⟨p, hp, decide_eq_true he⟩)
        rw [List.map_append]
        simp [List.nodup_append, hnd, hnotin]
    have hmemI : ∀ t : RoleTemplate,
        (t.name, t) ∈ insertRT rt acc ↔ ((t.name, t) ∈ acc ∨ t = rt) := by
      intro t
      rw [hins]
      by_cases hany : acc.any (fun p => decide (p.1 = rt.name))
      · rw [if_pos hany]
        constructor
        · exact fun h' => Or.inl h'
        · rintro (h' | rfl)
          · exact h'
          · rcases List.any_eq_true.mp hany with ⟨p, hp, hpe⟩
            rw [decide_eq_true_eq] at hpe
            have h1 := hwf p hp
            rw [hpe, hrt] at h1
            injection h1 with e
            have hpp : p = (t.name, t) := Prod.ext_iff.mpr ⟨hpe, e.symm⟩
            rw [← hpp]
            exact hp
      · rw [if_neg hany]
        rw [List.mem_append, List.mem_singleton]
        constructor
        · rintro (h' | h')
          · exact Or.inl h'
          · exact Or.inr (congrArg Prod.snd h')
        · rintro (h' | rfl)
          · exact Or.inl h'
          · exact Or.inr rfl
    obtain ⟨hwfR, hndR, hmemR, hcondR, hfetchR⟩ :=
      listSpec rt.roleTemplateNames (insertRT rt acc) res hwfI hndI h
    refine ⟨hwfR, hndR, ?_, ?_⟩
    · intro t
      rw [hmemR t, hmemI t]
      constructor
      · rintro ((hacc | rfl) | ⟨n, hn, mm, hreach⟩)
        · exact Or.inl hacc
        · exact Or.inr ⟨t.name, ReachableFrom.root hrt⟩
        · exact Or.inr ⟨mm, ReachableFrom_lift (ReachableFrom.root hrt) hn hreach⟩
      · rintro (hacc | ⟨mm, hreach⟩)
        · exact Or.inl (Or.inl hacc)
        · rcases ReachableFrom_decompose hreach with ⟨rfl, hfind⟩ |
            ⟨rt0, n, hfind0, hmem0, hreach'⟩
          · rw [hrt] at hfind
            injection hfind with e
            exact Or.inl (Or.inr e.symm)
          · rw [hrt] at hfind0
            injection hfind0 with e
            subst e
            exact Or.inr ⟨n, hmem0, mm, hreach'⟩
    · intro mm t hreach n' hn'
      rcases ReachableFrom_decompose hreach with ⟨rfl, hfind⟩ |
        ⟨rt0, n, hfind0, hmem0, hreach'⟩
      · rw [hrt] at hfind
        injection hfind with e
        subst e
        exact hfetchR n' hn'
      · rw [hrt] at hfind0
        injection hfind0 with e
        subst e
        exact hcondR n hmem0 mm t hreach' n' hn'

theorem dedupe_eq_self : ∀ (l acc : List (String × RoleTemplate)),
    (∀ p ∈ l, p.1 = p.2.name) →
    ((acc.map Prod.fst ++ l.map Prod.fst).Nodup) →
    l.foldl (fun roles p => insertRT p.2 roles) acc = acc ++ l := by
  intro l
  induction l with
  | nil =>
    intro acc _ _
    simp
  | cons p ps ih =>
    intro acc hkey hnd
    rw [List.foldl_cons]
    have hp1 : p.1 = p.2.name := hkey p (List.mem_cons_self _ _)
    have hnotin : ¬ acc.any (fun q => decide (q.1 = p.2.name)) = true := by
      intro hany
      rcases List.any_eq_true.mp hany with ⟨q, hq, hqe⟩
      rw [decide_eq_true_eq] at hqe
      have hd := List.disjoint_of_nodup_append hnd
      refine hd (List.mem_map_of_mem Prod.fst hq) ?_
      rw [List.map_cons, hqe, ← hp1]
      exact List.mem_cons_self _ _
    have hins : insertRT p.2 acc = acc ++ [(p.2.name, p.2)] := by
      rw [insertRT, if_neg hnotin]
    have hpp : ((p.2.name : String), p.2) = p := Prod.ext_iff.mpr ⟨hp1.symm, rfl⟩
    rw [hins, hpp]
    rw [ih (acc ++ [p]) (fun q hq => hkey q (List.mem_cons_of_mem _ hq)) ?nodup]
    case nodup =>
      rw [List.map_append]
      have : (acc.map Prod.fst ++ [p].map Prod.fst) ++ ps.map Prod.fst =
          acc.map Prod.fst ++ (p :: ps).map Prod.fst := by
        simp
      rw [this]
      exact hnd
    simp

/-- C7: when the gather-and-dedupe walk succeeds, the returned map holds
exactly the role templates reachable from the root via inheritance
(including the root itself), each appearing once keyed by its name; and
success guarantees that every template name referenced anywhere in the
reachable set was fetchable, so a walk that meets a missing sub-template
never produces a result set (it aborts with the wrapped NotFound error). -/
theorem gatherAndDedupeRoles_reachable (store : List RoleTemplate) (fuel : Nat)
    (name : String) (m : List (String × RoleTemplate))
    (h : gatherAndDedupeRoles store fuel name = some (Except.ok m)) :
    ((m.map Prod.fst).Nodup) ∧
    (∀ p ∈ m, p.1 = p.2.name) ∧
    (∀ t : RoleTemplate, (t.name, t) ∈ m ↔ ∃ mm, ReachableFrom store name mm t) ∧
    (∀ mm t, ReachableFrom store name mm t →
      ∀ n' ∈ t.roleTemplateNames, (getRoleTemplate store n').isSome) := by
  rw [gatherAndDedupeRoles] at h
  rcases hlook : getRoleTemplate store name with _ | root <;> simp only [hlook] at h
  · simp at h
  · rcases hg : gatherRoleTemplates store fuel root [] with _ | er <;>
      simp only [hg] at h
    · exact Option.noConfusion h
    · rcases er with e | allRoles
      · simp at h
      · injection h with h'
        injection h' with h''
        have hrootname : root.name = name := getRoleTemplate_name hlook
        have hroot' : getRoleTemplate store root.name = some root := by
          rw [hrootname]
          exact hlook
        obtain ⟨hwfA, hndA, hmemA, hcondA⟩ :=
          gather_spec store fuel root [] allRoles hroot'
            (by intro p hp; cases hp) (by simp) hg
        have hkeyA : ∀ p ∈ allRoles, p.1 = p.2.name :=
          fun p hp => (getRoleTemplate_name (hwfA p hp)).symm
        have hdedupe :
            allRoles.foldl (fun roles p => insertRT p.2 roles) [] = allRoles := by
          have hd := dedupe_eq_self allRoles [] hkeyA (by simpa using hndA)
          simpa using hd
        rw [← h'', hdedupe]
        refine ⟨hndA, hkeyA, ?_, ?_⟩
        · intro t
          rw [hmemA t]
          constructor
          · rintro (hnil | ⟨mm, hreach⟩)
            · cases hnil
            · exact ⟨mm, hrootname ▸ hreach⟩
          · rintro ⟨mm, hreach⟩
            exact Or.inr ⟨mm, hrootname.symm ▸ hreach⟩
        · intro mm t hreach
          exact hcondA mm t (hrootname.symm ▸ hreach)

/-- Root template of the C7 witness store. -/
def c7Root : RoleTemplate :=
  { name := "r", rules := [], external := false, builtin := false,
    context := "cluster", administrative := false, roleTemplateNames := ["child"] }

/-- Inherited template of the C7 witness store. -/
def c7Child : RoleTemplate :=
  { name := "child", rules := [], external := false, builtin := false,
    context := "cluster", administrative := false, roleTemplateNames := [] }

/-- Store of the C7 witness. -/
def c7Store : List RoleTemplate := [c7Root, c7Child]

/-- Witness for C7 at a concrete input: root `r` inheriting `child`. -/
theorem gatherAndDedupeRoles_reachable_witness :
    ((([("r", c7Root), ("child", c7Child)].map Prod.fst)).Nodup) ∧
    (∀ p ∈ [("r", c7Root), ("child", c7Child)], p.1 = p.2.name) ∧
    (∀ t : RoleTemplate, (t.name, t) ∈ [("r", c7Root), ("child", c7Child)] ↔
      ∃ mm, ReachableFrom c7Store "r" mm t) ∧
    (∀ mm t, ReachableFrom c7Store "r" mm t →
      ∀ n' ∈ t.roleTemplateNames, (getRoleTemplate c7Store n').isSome) :=
  gatherAndDedupeRoles_reachable c7Store 2 "r" [("r", c7Root), ("child", c7Child)] rfl

/-! ## C3 / C10: ensureClusterMembershipBinding / ensureProjectMembershipBinding -/

/-- The slice of the object store a membership-ensure call touches: the
bindings and membership roles of the relevant scope, plus a counter
feeding `GenerateName`. -/
structure RBACState where
  bindings : List Binding
  roles : List MgmtRole
  nextId : Nat
deriving DecidableEq, Repr

/-- `crLister.Get` / `rLister.Get` for membership roles. -/
def getMgmtRole (roles : List MgmtRole) (name : String) : Option MgmtRole :=
  roles.find? (fun r => decide (r.name = name))

/-- The rule set built by `createMembershipRole` (manager.go:296-309). -/
def membershipRoleRules (resourceType ownerName : String) (makeOwner : Bool) :
    List PolicyRule :=
  [{ apiGroups := ["management.cattle.io"], resources := [resourceType],
     resourceNames := [ownerName], verbs := if makeOwner then ["*"] else ["get"] }]

/-- `createClusterMembershipRole` / `createProjectMembershipRole`
(manager.go:271-285) followed by `createMembershipRole`
(manager.go:287-326): create the role only when the lister finds none. -/
def createMembershipRoleIfAbsent (resourceType roleName ownerName : String)
    (makeOwner : Bool) (s : RBACState) : RBACState :=
  match getMgmtRole s.roles roleName with
  | some _ => s
  | none =>
    { s with roles := s.roles ++
        [{ name := roleName,
           rules := membershipRoleRules resourceType ownerName makeOwner }] }

/-- The candidate loop of the ensure functions (manager.go:126-136 and
201-211): `Subjects[0]` is read whenever the subject count differs
from 1, so a tagged binding with an empty subject list is the Go
out-of-bounds run-time fault, modelled as the `Except.error`; the `cur`
argument is the loop's `crb` variable. -/
def findMembershipCandidate (key : String × Subject) :
    List Binding → Option Binding → Except Unit (Option Binding)
  | [], cur => Except.ok cur
  | iCRB :: rest, cur =>
    if iCRB.subjects.length ≠ 1 then
      match iCRB.subjects with
      | [] => Except.error ()
      | s0 :: _ =>
        if rbRoleSubjectKey iCRB.roleRefName s0 = key then
          findMembershipCandidate key rest (some iCRB)
        else
          findMembershipCandidate key rest cur
    else findMembershipCandidate key rest cur

/-- The shared tail of `ensureClusterMembershipBinding`
(manager.go:120-183) and `ensureProjectMembershipBinding`
(manager.go:194-266) — the two are line-for-line parallel (a duplication
the source comment itself points out), differing only in the
reconcile-for-delete variant and the `GenerateName` stem, passed here as
parameters.  The Bool is true when the call ran to completion and false
on the out-of-bounds fault of the candidate loop. -/
def membershipPipeline (reconcile : List Binding → List Binding)
    (generateStem : String) (roleName rtbUID : String) (subject : Subject)
    (s : RBACState) : RBACState × Bool :=
  let key := rbRoleSubjectKey roleName subject
  let crbs := membershipBindingOwnerIndexLookup rtbUID s.bindings
  match findMembershipCandidate key crbs none with
  | Except.error _ => (s, false)
  | Except.ok crbOpt =>
    let s1 : RBACState := { s with bindings := reconcile s.bindings }
    match crbOpt with
    | some _ => (s1, true)
    | none =>
      match rbByRoleAndSubjectLookup key s1.bindings with
      | [] =>
        ({ s1 with
            bindings := s1.bindings ++
              [{ name := generateStem ++ toString s1.nextId,
                 labels := [(rtbUID, membershipBindingOwner)],
                 subjects := [subject], roleRefName := roleName }],
            nextId := s1.nextId + 1 }, true)
      | crb0 :: _ =>
        if crb0.labels.any (fun p => decide (p.1 = rtbUID)) then (s1, true)
        else
          ({ s1 with
              bindings := updateBinding
                { crb0 with labels := crb0.labels ++ [(rtbUID, membershipBindingOwner)] }
                s1.bindings }, true)

/-- `ensureClusterMembershipBinding` (manager.go:115-184). -/
def ensureClusterMembershipBinding (roleName rtbUID clusterName : String)
    (makeOwner : Bool) (subject : Subject) (s0 : RBACState) : RBACState × Bool :=
  membershipPipeline (reconcileClusterMembershipBindingForDelete roleName rtbUID)
    "clusterrolebinding-" roleName rtbUID subject
    (createMembershipRoleIfAbsent clusterResource roleName clusterName makeOwner s0)

/-- `ensureProjectMembershipBinding` (manager.go:188-267). -/
def ensureProjectMembershipBinding (roleName rtbUID projectName : String)
    (makeOwner : Bool) (subject : Subject) (s0 : RBACState) : RBACState × Bool :=
  membershipPipeline (reconcileProjectMembershipBindingForDelete roleName rtbUID)
    "rolebinding-" roleName rtbUID subject
    (createMembershipRoleIfAbsent projectResource roleName projectName makeOwner s0)

/-- The condition under which the candidate loop adopts a binding: the
subject count differs from 1, the list is nonempty (no fault), and the
first subject together with the role matches the key. -/
def candMatchesB (key : String × Subject) (b : Binding) : Bool :=
  match b.subjects with
  | [] => false
  | s0 :: _ =>
    decide (b.subjects.length ≠ 1) && decide (rbRoleSubjectKey b.roleRefName s0 = key)

theorem findCand_total (key : String × Subject) :
    ∀ (l : List Binding), (∀ b ∈ l, b.subjects ≠ []) →
      ∀ cur, ∃ r, findMembershipCandidate key l cur = Except.ok r := by
  intro l
  induction l with
  | nil =>
    intro _ cur
    exact ⟨cur, rfl⟩
  | cons i rest ih =>
    intro hne cur
    have hrest : ∀ b ∈ rest, b.subjects ≠ [] :=
      fun b hb => hne b (List.mem_cons_of_mem _ hb)
    rw [findMembershipCandidate]
    by_cases hlen : i.subjects.length ≠ 1
    · rw [if_pos hlen]
      rcases hsub : i.subjects with _ | ⟨s0, tl⟩
      · exact absurd hsub (hne i (List.mem_cons_self _ _))
      · show ∃ r, (if rbRoleSubjectKey i.roleRefName s0 = key then
            findMembershipCandidate key rest (some i)
          else findMembershipCandidate key rest cur) = Except.ok r
        by_cases hkey : rbRoleSubjectKey i.roleRefName s0 = key
        · rw [if_pos hkey]
          exact ih hrest (some i)
        · rw [if_neg hkey]
          exact ih hrest cur
    · rw [if_neg hlen]
      exact ih hrest cur

theorem findCand_some_stays (key : String × Subject) :
    ∀ (l : List Binding) (c : Binding) (r : Option Binding),
      findMembershipCandidate key l (some c) = Except.ok r → ∃ c', r = some c' := by
  intro l
  induction l with
  | nil =>
    intro c r h
    injection h with h'
    exact ⟨c, h'.symm⟩
  | cons i rest ih =>
    intro c r h
    rw [findMembershipCandidate] at h
    by_cases hlen : i.subjects.length ≠ 1
    · rw [if_pos hlen] at h
      rcases hsub : i.subjects with _ | ⟨s0, tl⟩
      · simp only [hsub] at h
        exact Except.noConfusion h
      · simp only [hsub] at h
        by_cases hkey : rbRoleSubjectKey i.roleRefName s0 = key
        · rw [if_pos hkey] at h
          exact ih i r h
        · rw [if_neg hkey] at h
          exact ih c r h
    · rw [if_neg hlen] at h
      exact ih c r h

theorem findCand_ok_nonempty (key : String × Subject) :
    ∀ (l : List Binding) (cur r : Option Binding),
      findMembershipCandidate key l cur = Except.ok r → ∀ b ∈ l, b.subjects ≠ [] := by
  intro l
  induction l with
  | nil =>
    intro cur r _ b hb
    cases hb
  | cons i rest ih =>
    intro cur r h b hb
    rw [findMembershipCandidate] at h
    by_cases hlen : i.subjects.length ≠ 1
    · rw [if_pos hlen] at h
      rcases hsub : i.subjects with _ | ⟨s0, tl⟩
      · simp only [hsub] at h
        exact Except.noConfusion h
      · simp only [hsub] at h
        rcases List.mem_cons.mp hb with rfl | hb'
        · rw [hsub]
          simp
        · by_cases hkey : rbRoleSubjectKey i.roleRefName s0 = key
          · rw [if_pos hkey] at h
            exact ih _ _ h b hb'
          · rw [if_neg hkey] at h
            exact ih _ _ h b hb'
    · rw [if_neg hlen] at h
      rcases List.mem_cons.mp hb with rfl | hb'
      · intro hemp
        rw [hemp] at hlen
        exact hlen (by simp)
      · exact ih _ _ h b hb'

theorem findCand_ok_none_nomatch (key : String × Subject) :
    ∀ (l : List Binding) (cur : Option Binding),
      findMembershipCandidate key l cur = Except.ok none →
      ∀ b ∈ l, candMatchesB key b = false := by
  intro l
  induction l with
  | nil =>
    intro cur _ b hb
    cases hb
  | cons i rest ih =>
    intro cur h b hb
    rw [findMembershipCandidate] at h
    by_cases hlen : i.subjects.length ≠ 1
    · rw [if_pos hlen] at h
      rcases hsub : i.subjects with _ | ⟨s0, tl⟩
      · simp only [hsub] at h
        exact Except.noConfusion h
      · simp only [hsub] at h
        by_cases hkey : rbRoleSubjectKey i.roleRefName s0 = key
        · rw [if_pos hkey] at h
          rcases findCand_some_stays key rest i none h with ⟨c', hc'⟩
          exact Option.noConfusion hc'
        · rw [if_neg hkey] at h
          rcases List.mem_cons.mp hb with rfl | hb'
          · rw [candMatchesB, hsub]
            simp [hkey]
          · exact ih _ h b hb'
    · rw [if_neg hlen] at h
      rcases List.mem_cons.mp hb with rfl | hb'
      · rw [candMatchesB]
        rcases hsub : b.subjects with _ | ⟨s0, tl⟩
        · rfl
        · simp only [Bool.and_eq_false_iff]
          left
          simpa [hsub] using hlen
      · exact ih _ h b hb'

theorem findCand_ok_some_mem (key : String × Subject) :
    ∀ (l : List Binding) (cur : Option Binding) (c : Binding),
      findMembershipCandidate key l cur = Except.ok (some c) →
      cur = some c ∨ (c ∈ l ∧ candMatchesB key c = true) := by
  intro l
  induction l with
  | nil =>
    intro cur c h
    injection h with h'
    exact Or.inl h'
  | cons i rest ih =>
    intro cur c h
    rw [findMembershipCandidate] at h
    by_cases hlen : i.subjects.length ≠ 1
    · rw [if_pos hlen] at h
      rcases hsub : i.subjects with _ | ⟨s0, tl⟩
      · simp only [hsub] at h
        exact Except.noConfusion h
      · simp only [hsub] at h
        by_cases hkey : rbRoleSubjectKey i.roleRefName s0 = key
        · rw [if_pos hkey] at h
          rcases ih _ _ h with he | ⟨hc, hcand⟩
          · injection he with he'
            subst he'
            refine Or.inr ⟨List.mem_cons_self _ _, ?_⟩
            simp only [candMatchesB, hsub, Bool.and_eq_true, decide_eq_true_eq]
            exact ⟨by rw [← hsub]; exact hlen, hkey⟩
          · exact Or.inr ⟨List.mem_cons_of_mem _ hc, hcand⟩
        · rw [if_neg hkey] at h
          rcases ih _ _ h with he | ⟨hc, hcand⟩
          · exact Or.inl he
          · exact Or.inr ⟨List.mem_cons_of_mem _ hc, hcand⟩
    · rw [if_neg hlen] at h
      rcases ih _ _ h with he | ⟨hc, hcand⟩
      · exact Or.inl he
      · exact Or.inr ⟨List.mem_cons_of_mem _ hc, hcand⟩

theorem findCand_const (key : String × Subject) :
    ∀ (l : List Binding),
      (∀ b ∈ l, b.subjects ≠ [] ∧ candMatchesB key b = false) →
      ∀ cur, findMembershipCandidate key l cur = Except.ok cur := by
  intro l
  induction l with
  | nil =>
    intro _ cur
    rfl
  | cons i rest ih =>
    intro h cur
    have hrest := fun b hb => h b (List.mem_cons_of_mem _ hb)
    obtain ⟨hne, hcand⟩ := h i (List.mem_cons_self _ _)
    rw [findMembershipCandidate]
    by_cases hlen : i.subjects.length ≠ 1
    · rw [if_pos hlen]
      rcases hsub : i.subjects with _ | ⟨s0, tl⟩
      · exact absurd hsub hne
      · rw [candMatchesB] at hcand
        rw [hsub] at hcand
        simp only [Bool.and_eq_false_iff, decide_eq_false_iff_not] at hcand
        rcases hcand with hc | hc
        · exact absurd (by simpa [hsub] using hlen) hc
        · show (if rbRoleSubjectKey i.roleRefName s0 = key then
              findMembershipCandidate key rest (some i)
            else findMembershipCandidate key rest cur) = Except.ok cur
          rw [if_neg hc]
          exact ih hrest cur
    · rw [if_neg hlen]
      exact ih hrest cur

theorem findCand_match_some (key : String × Subject) :
    ∀ (l : List Binding), (∀ b ∈ l, b.subjects ≠ []) →
      ∀ c, c ∈ l → candMatchesB key c = true →
      ∀ cur, ∃ c', findMembershipCandidate key l cur = Except.ok (some c') := by
  intro l
  induction l with
  | nil =>
    intro _ c hc
    cases hc
  | cons i rest ih =>
    intro hne c hc hcand cur
    have hrest : ∀ b ∈ rest, b.subjects ≠ [] :=
      fun b hb => hne b (List.mem_cons_of_mem _ hb)
    rw [findMembershipCandidate]
    rcases List.mem_cons.mp hc with rfl | hc'
    · rcases hsub : c.subjects with _ | ⟨s0, tl⟩
      · exact absurd hsub (hne c (List.mem_cons_self _ _))
      · simp only [candMatchesB, hsub, Bool.and_eq_true, decide_eq_true_eq] at hcand
        rw [if_pos (show (s0 :: tl).length ≠ 1 by simpa using hcand.1)]
        show ∃ c', (if rbRoleSubjectKey c.roleRefName s0 = key then
            findMembershipCandidate key rest (some c)
          else findMembershipCandidate key rest cur) = Except.ok (some c')
        rw [if_pos hcand.2]
        rcases findCand_total key rest hrest (some c) with ⟨r, hr⟩
        rcases findCand_some_stays key rest c r hr with ⟨c', hc''⟩
        exact ⟨c', by rw [hr, hc'']⟩
    · by_cases hlen : i.subjects.length ≠ 1
      · rw [if_pos hlen]
        rcases hsub : i.subjects with _ | ⟨s0, tl⟩
        · exact absurd hsub (hne i (List.mem_cons_self _ _))
        · show ∃ c', (if rbRoleSubjectKey i.roleRefName s0 = key then
              findMembershipCandidate key rest (some i)
            else findMembershipCandidate key rest cur) = Except.ok (some c')
          by_cases hkey : rbRoleSubjectKey i.roleRefName s0 = key
          · rw [if_pos hkey]
            exact ih hrest c hc' hcand (some i)
          · rw [if_neg hkey]
            exact ih hrest c hc' hcand cur
      · rw [if_neg hlen]
        exact ih hrest c hc' hcand cur

theorem recon_cons_rb (roleToKeep rtbUID : String) (b : Binding)
    (objs : List IndexedObj) (s : List Binding) :
    reconcileMembershipBindingForDelete roleToKeep rtbUID (IndexedObj.rb b :: objs) s =
      reconcileMembershipBindingForDelete roleToKeep rtbUID objs
        (if b.roleRefName = roleToKeep then s
         else if hasOtherOwners rtbUID b.labels then
           updateBinding { b with labels := stripOwnerLabel rtbUID b.labels } s
         else deleteBinding b.name s) := rfl

theorem recon_cons_crb (roleToKeep rtbUID : String) (b : Binding)
    (objs : List IndexedObj) (s : List Binding) :
    reconcileMembershipBindingForDelete roleToKeep rtbUID (IndexedObj.crb b :: objs) s =
      reconcileMembershipBindingForDelete roleToKeep rtbUID objs s := rfl

theorem recon_crbs_id (roleToKeep rtbUID : String) :
    ∀ (l : List Binding) (s : List Binding),
      reconcileMembershipBindingForDelete roleToKeep rtbUID (l.map IndexedObj.crb) s = s := by
  intro l
  induction l with
  | nil => intro s; rfl
  | cons b rest ih =>
    intro s
    rw [List.map_cons, recon_cons_crb]
    exact ih s

/-- C3 helper: the cluster variant of reconcile-for-delete never changes
the store (every indexed object fails the `*v1.RoleBinding` assertion). -/
theorem reconCluster_id (roleToKeep rtbUID : String) (bs : List Binding) :
    reconcileClusterMembershipBindingForDelete roleToKeep rtbUID bs = bs := by
  rw [reconcileClusterMembershipBindingForDelete]
  exact recon_crbs_id roleToKeep rtbUID _ bs

theorem updateBinding_cons_ne (b x : Binding) (s : List Binding)
    (h : ¬ x.name = b.name) :
    updateBinding b (x :: s) = x :: updateBinding b s := by
  rw [updateBinding, List.map_cons, if_neg h]
  rfl

theorem deleteBinding_cons_ne (n : String) (x : Binding) (s : List Binding)
    (h : ¬ x.name = n) :
    deleteBinding n (x :: s) = x :: deleteBinding n s := by
  rw [deleteBinding, List.filter_cons]
  simp only [h, decide_False, Bool.not_false, if_true]
  rfl

theorem updateBinding_not_mem (b : Binding) (s : List Binding)
    (h : b.name ∉ s.map Binding.name) :
    updateBinding b s = s := by
  rw [updateBinding]
  apply map_id_of_mem
  intro x hx
  rw [if_neg]
  intro he
  exact h (he ▸ List.mem_map_of_mem Binding.name hx)

theorem deleteBinding_not_mem (n : String) (s : List Binding)
    (h : n ∉ s.map Binding.name) :
    deleteBinding n s = s := by
  rw [deleteBinding]
  apply List.filter_eq_self.mpr
  intro x hx
  simp only [Bool.not_eq_true', decide_eq_false_iff_not]
  intro he
  exact h (he ▸ List.mem_map_of_mem Binding.name hx)

theorem recon_skip (roleToKeep rtbUID : String) :
    ∀ (objs : List IndexedObj) (s : List Binding),
      (∀ o ∈ objs, ∀ b, asRoleBinding o = some b → b.roleRefName = roleToKeep) →
      reconcileMembershipBindingForDelete roleToKeep rtbUID objs s = s := by
  intro objs
  induction objs with
  | nil => intro s _; rfl
  | cons o os ih =>
    intro s h
    have hos : ∀ o' ∈ os, ∀ b, asRoleBinding o' = some b → b.roleRefName = roleToKeep :=
      fun o' ho' => h o' (List.mem_cons_of_mem _ ho')
    rcases o with b | b
    · rw [recon_cons_rb]
      rw [if_pos (h (IndexedObj.rb b) (List.mem_cons_self _ _) b rfl)]
      exact ih s hos
    · rw [recon_cons_crb]
      exact ih s hos

theorem recon_prepend (roleToKeep rtbUID : String) :
    ∀ (objs : List IndexedObj) (x : Binding) (s : List Binding),
      (∀ o ∈ objs, ∀ b, asRoleBinding o = some b → ¬ b.name = x.name) →
      reconcileMembershipBindingForDelete roleToKeep rtbUID objs (x :: s) =
        x :: reconcileMembershipBindingForDelete roleToKeep rtbUID objs s := by
  intro objs
  induction objs with
  | nil => intro x s _; rfl
  | cons o os ih =>
    intro x s h
    have hos : ∀ o' ∈ os, ∀ b, asRoleBinding o' = some b → ¬ b.name = x.name :=
      fun o' ho' => h o' (List.mem_cons_of_mem _ ho')
    rcases o with b | b
    · have hbs : ¬ b.name = x.name := h (IndexedObj.rb b) (List.mem_cons_self _ _) b rfl
      rw [recon_cons_rb, recon_cons_rb]
      by_cases hrole : b.roleRefName = roleToKeep
      · rw [if_pos hrole, if_pos hrole]
        exact ih x s hos
      · rw [if_neg hrole, if_neg hrole]
        by_cases hoo : hasOtherOwners rtbUID b.labels
        · rw [if_pos hoo, if_pos hoo]
          rw [updateBinding_cons_ne { b with labels := stripOwnerLabel rtbUID b.labels }
            x s (fun he => hbs he.symm)]
          exact ih x _ hos
        · rw [if_neg hoo, if_neg hoo]
          rw [deleteBinding_cons_ne b.name x s (fun he => hbs he.symm)]
          exact ih x _ hos
    · rw [recon_cons_crb, recon_cons_crb]
      exact ih x s hos

/-- The per-binding outcome of the project reconcile-for-delete: used to
describe `reconcileProjectMembershipBindingForDelete` as a pointwise
store transformation. -/
def projOutcome (roleToKeep rtbUID : String) (b : Binding) : Option Binding :=
  if taggedWithOwner rtbUID b then
    if b.roleRefName = roleToKeep then some b
    else if hasOtherOwners rtbUID b.labels then
      some { b with labels := stripOwnerLabel rtbUID b.labels }
    else none
  else some b

theorem reconProj_eq_filterMap (roleToKeep rtbUID : String) :
    ∀ (bs : List Binding), (bs.map Binding.name).Nodup →
      reconcileProjectMembershipBindingForDelete roleToKeep rtbUID bs =
        bs.filterMap (projOutcome roleToKeep rtbUID) := by
  intro bs
  induction bs with
  | nil => intro _; rfl
  | cons x rest ih =>
    intro hnd
    have hndrest : (rest.map Binding.name).Nodup :=
      (List.nodup_cons.mp (by simpa using hnd)).2
    have hxnot : x.name ∉ rest.map Binding.name :=
      (List.nodup_cons.mp (by simpa using hnd)).1
    have hcond : ∀ o ∈ (rest.filter (taggedWithOwner rtbUID)).map IndexedObj.rb,
        ∀ b, asRoleBinding o = some b → ¬ b.name = x.name := by
      intro o ho b hb
      rcases List.mem_map.mp ho with ⟨b', hb', rfl⟩
      injection hb with e
      subst e
      intro he
      exact hxnot (he ▸ List.mem_map_of_mem Binding.name (List.mem_of_mem_filter hb'))
    have htail : reconcileMembershipBindingForDelete roleToKeep rtbUID
        ((rest.filter (taggedWithOwner rtbUID)).map IndexedObj.rb) rest =
        rest.filterMap (projOutcome roleToKeep rtbUID) := by
      rw [show reconcileMembershipBindingForDelete roleToKeep rtbUID
          ((rest.filter (taggedWithOwner rtbUID)).map IndexedObj.rb) rest =
        reconcileProjectMembershipBindingForDelete roleToKeep rtbUID rest from rfl]
      exact ih hndrest
    rw [reconcileProjectMembershipBindingForDelete, membershipBindingOwnerIndexLookup,
      List.filter_cons]
    by_cases htag : taggedWithOwner rtbUID x
    · rw [if_pos htag, List.map_cons, recon_cons_rb]
      by_cases hrole : x.roleRefName = roleToKeep
      · have hout : projOutcome roleToKeep rtbUID x = some x := by
          rw [projOutcome, if_pos htag, if_pos hrole]
        rw [if_pos hrole, List.filterMap_cons_some hout]
        rw [recon_prepend roleToKeep rtbUID _ x rest hcond]
        rw [htail]
      · by_cases hoo : hasOtherOwners rtbUID x.labels
        · have hout : projOutcome roleToKeep rtbUID x =
              some { x with labels := stripOwnerLabel rtbUID x.labels } := by
            rw [projOutcome, if_pos htag, if_neg hrole, if_pos hoo]
          rw [if_neg hrole, if_pos hoo, List.filterMap_cons_some hout]
          have hupd : updateBinding
              { x with labels := stripOwnerLabel rtbUID x.labels } (x :: rest) =
              { x with labels := stripOwnerLabel rtbUID x.labels } :: rest := by
            rw [updateBinding, List.map_cons, if_pos rfl]
            rw [show rest.map (fun y => if y.name =
                ({ x with labels := stripOwnerLabel rtbUID x.labels } : Binding).name
                then { x with labels := stripOwnerLabel rtbUID x.labels } else y) =
              updateBinding { x with labels := stripOwnerLabel rtbUID x.labels } rest
              from rfl]
            rw [updateBinding_not_mem
              { x with labels := stripOwnerLabel rtbUID x.labels } rest hxnot]
          rw [hupd]
          rw [recon_prepend roleToKeep rtbUID
            ((rest.filter (taggedWithOwner rtbUID)).map IndexedObj.rb)
            { x with labels := stripOwnerLabel rtbUID x.labels } rest hcond]
          rw [htail]
        · have hout : projOutcome roleToKeep rtbUID x = none := by
            rw [projOutcome, if_pos htag, if_neg hrole, if_neg hoo]
          rw [if_neg hrole, if_neg hoo, List.filterMap_cons_none hout]
          have hdel : deleteBinding x.name (x :: rest) = rest := by
            rw [deleteBinding, List.filter_cons]
            simp only [decide_True, Bool.not_true, Bool.false_eq_true, if_false]
            rw [show rest.filter (fun b => !(decide (b.name = x.name))) =
              deleteBinding x.name rest from rfl]
            rw [deleteBinding_not_mem _ _ hxnot]
          rw [hdel, htail]
    · have hout : projOutcome roleToKeep rtbUID x = some x := by
        rw [projOutcome, if_neg htag]
      rw [if_neg htag, List.filterMap_cons_some hout]
      rw [recon_prepend roleToKeep rtbUID _ x rest hcond]
      rw [htail]

theorem strip_untags (rtbUID : String) (b : Binding) :
    taggedWithOwner rtbUID { b with labels := stripOwnerLabel rtbUID b.labels } = false := by
  simp only [taggedWithOwner, stripOwnerLabel]
  rw [List.any_eq_false]
  intro p hp
  rcases List.mem_filter.mp hp with ⟨_, hpred⟩
  simp only [Bool.not_eq_true', decide_eq_false_iff_not] at hpred
  simpa using hpred

theorem projOutcome_name (k u : String) (b b' : Binding)
    (h : projOutcome k u b = some b') : b'.name = b.name := by
  rw [projOutcome] at h
  split_ifs at h with h1 h2 h3 <;> cases h <;> rfl

theorem projOutcome_survivor_tagged (k u : String) (b b' : Binding)
    (h : projOutcome k u b = some b') (htag : taggedWithOwner u b' = true) :
    b' = b ∧ taggedWithOwner u b = true ∧ b.roleRefName = k := by
  rw [projOutcome] at h
  split_ifs at h with h1 h2 h3
  · cases h
    exact ⟨rfl, h1, h2⟩
  · cases h
    simp [strip_untags] at htag
  · cases h
    exact absurd htag h1

theorem reconProj_tagged_survivor (k u : String) (bs : List Binding)
    (hnd : (bs.map Binding.name).Nodup) (b' : Binding)
    (hmem : b' ∈ reconcileProjectMembershipBindingForDelete k u bs)
    (htag : taggedWithOwner u b' = true) :
    b' ∈ bs ∧ b'.roleRefName = k := by
  rw [reconProj_eq_filterMap k u bs hnd] at hmem
  rcases List.mem_filterMap.mp hmem with ⟨b, hb, hout⟩
  obtain ⟨e, _, hrole⟩ := projOutcome_survivor_tagged k u b b' hout htag
  subst e
  exact ⟨hb, hrole⟩

theorem reconProj_id_of_all_roleToKeep (k u : String) (bs : List Binding)
    (h : ∀ b ∈ bs, taggedWithOwner u b = true → b.roleRefName = k) :
    reconcileProjectMembershipBindingForDelete k u bs = bs := by
  rw [reconcileProjectMembershipBindingForDelete]
  apply recon_skip
  intro o ho b hb
  rcases List.mem_map.mp ho with ⟨b0, hb0, rfl⟩
  injection hb with e
  rw [← e]
  have hb0' : b0 ∈ bs.filter (taggedWithOwner u) := hb0
  exact h b0 (List.mem_of_mem_filter hb0') (List.of_mem_filter hb0')

theorem filterMap_projOutcome_names_sublist (k u : String) :
    ∀ (bs : List Binding),
      ((bs.filterMap (projOutcome k u)).map Binding.name).Sublist
        (bs.map Binding.name) := by
  intro bs
  induction bs with
  | nil => simp
  | cons b rest ih =>
    rcases hout : projOutcome k u b with _ | b'
    · rw [List.filterMap_cons_none hout, List.map_cons]
      exact ih.cons _
    · rw [List.filterMap_cons_some hout, List.map_cons, List.map_cons,
        projOutcome_name k u b b' hout]
      exact ih.cons₂ _

theorem reconProj_nodup (k u : String) (bs : List Binding)
    (hnd : (bs.map Binding.name).Nodup) :
    ((reconcileProjectMembershipBindingForDelete k u bs).map Binding.name).Nodup := by
  rw [reconProj_eq_filterMap k u bs hnd]
  exact hnd.sublist (filterMap_projOutcome_names_sublist k u bs)

theorem reconProj_keeps (k u : String) (bs : List Binding)
    (hnd : (bs.map Binding.name).Nodup) (c : Binding) (hc : c ∈ bs)
    (htag : taggedWithOwner u c = true) (hrole : c.roleRefName = k) :
    c ∈ reconcileProjectMembershipBindingForDelete k u bs := by
  rw [reconProj_eq_filterMap k u bs hnd]
  exact List.mem_filterMap.mpr ⟨c, hc, by rw [projOutcome, if_pos htag, if_pos hrole]⟩

theorem byKey_append (key : String × Subject) (l1 l2 : List Binding) :
    rbByRoleAndSubjectLookup key (l1 ++ l2) =
      rbByRoleAndSubjectLookup key l1 ++ rbByRoleAndSubjectLookup key l2 := by
  simp [rbByRoleAndSubjectLookup, List.filter_append]

theorem byKey_updateBinding (key : String × Subject) (bs : List Binding) (c' : Binding)
    (hpred : ∀ b ∈ bs, b.name = c'.name →
      b.subjects = c'.subjects ∧ b.roleRefName = c'.roleRefName) :
    rbByRoleAndSubjectLookup key (updateBinding c' bs) =
      (rbByRoleAndSubjectLookup key bs).map
        (fun b => if b.name = c'.name then c' else b) := by
  rw [rbByRoleAndSubjectLookup, rbByRoleAndSubjectLookup, updateBinding]
  induction bs with
  | nil => rfl
  | cons b rest ih =>
    have hrest := fun x hx => hpred x (List.mem_cons_of_mem _ hx)
    rw [List.map_cons, List.filter_cons, List.filter_cons]
    by_cases hname : b.name = c'.name
    · obtain ⟨hsub, hrole⟩ := hpred b (List.mem_cons_self _ _) hname
      rw [if_pos hname]
      have hpeq : (c'.subjects.any fun s =>
          decide (rbRoleSubjectKey c'.roleRefName s = key)) =
          (b.subjects.any fun s => decide (rbRoleSubjectKey b.roleRefName s = key)) := by
        rw [hsub, hrole]
      rw [hpeq]
      by_cases hmatch : (b.subjects.any fun s =>
          decide (rbRoleSubjectKey b.roleRefName s = key)) = true
      · rw [if_pos hmatch, if_pos hmatch, List.map_cons, if_pos hname, ih hrest]
      · rw [if_neg hmatch, if_neg hmatch]
        exact ih hrest
    · rw [if_neg hname]
      by_cases hmatch : (b.subjects.any fun s =>
          decide (rbRoleSubjectKey b.roleRefName s = key)) = true
      · rw [if_pos hmatch, if_pos hmatch, List.map_cons, if_neg hname, ih hrest]
      · rw [if_neg hmatch, if_neg hmatch]
        exact ih hrest

theorem find?_append_of_none {α : Type} (p : α → Bool) (l1 l2 : List α)
    (h : l1.find? p = none) : (l1 ++ l2).find? p = l2.find? p := by
  induction l1 with
  | nil => rfl
  | cons a as ih =>
    rw [List.cons_append]
    rcases hpa : p a with _ | _
    · simp only [List.find?_cons, hpa, cond_false] at h ⊢
      exact ih h
    · simp only [List.find?_cons, hpa, cond_true] at h
      exact Option.noConfusion h

theorem createMembershipRoleIfAbsent_state (resourceType roleName ownerName : String)
    (makeOwner : Bool) (s : RBACState) :
    (createMembershipRoleIfAbsent resourceType roleName ownerName makeOwner s).bindings
      = s.bindings ∧
    (createMembershipRoleIfAbsent resourceType roleName ownerName makeOwner s).nextId
      = s.nextId := by
  rcases h : getMgmtRole s.roles roleName with _ | r <;>
    simp [createMembershipRoleIfAbsent, h]

theorem createMembershipRoleIfAbsent_present (resourceType roleName ownerName : String)
    (makeOwner : Bool) (s : RBACState) :
    ∃ r, getMgmtRole
      (createMembershipRoleIfAbsent resourceType roleName ownerName makeOwner s).roles
      roleName = some r := by
  rcases h : getMgmtRole s.roles roleName with _ | r
  · simp only [createMembershipRoleIfAbsent, h]
    rw [getMgmtRole] at h
    rw [getMgmtRole, find?_append_of_none _ _ _ h]
    exact ⟨⟨roleName, membershipRoleRules resourceType ownerName makeOwner⟩,
      by simp [List.find?]⟩
  · exact ⟨r, by simp [createMembershipRoleIfAbsent, h]⟩

theorem createMembershipRoleIfAbsent_of_present (resourceType roleName ownerName : String)
    (makeOwner : Bool) (s : RBACState) (r : MgmtRole)
    (h : getMgmtRole s.roles roleName = some r) :
    createMembershipRoleIfAbsent resourceType roleName ownerName makeOwner s = s := by
  simp [createMembershipRoleIfAbsent, h]

theorem membershipPipeline_roles (reconcile : List Binding → List Binding)
    (generateStem roleName rtbUID : String) (subject : Subject) (s : RBACState) :
    (membershipPipeline reconcile generateStem roleName rtbUID subject s).1.roles
      = s.roles := by
  rw [membershipPipeline]
  rcases hf : findMembershipCandidate (rbRoleSubjectKey roleName subject)
      (membershipBindingOwnerIndexLookup rtbUID s.bindings) none with e | crbOpt
  · simp only [hf]
  · simp only [hf]
    rcases crbOpt with _ | c
    · rcases hb : rbByRoleAndSubjectLookup (rbRoleSubjectKey roleName subject)
          (reconcile s.bindings) with _ | ⟨c0, rest⟩
      · simp [hb]
      · by_cases hlab : c0.labels.any (fun p => decide (p.1 = rtbUID))
        · simp [hb, hlab]
        · simp [hb, hlab]
    · simp

theorem membershipPipeline_eq_error (reconcile : List Binding → List Binding)
    (generateStem roleName rtbUID : String) (subject : Subject) (s : RBACState)
    (e : Unit)
    (hf : findMembershipCandidate (rbRoleSubjectKey roleName subject)
      (membershipBindingOwnerIndexLookup rtbUID s.bindings) none = Except.error e) :
    membershipPipeline reconcile generateStem roleName rtbUID subject s = (s, false) := by
  simp only [membershipPipeline, hf]

theorem membershipPipeline_eq_found (reconcile : List Binding → List Binding)
    (generateStem roleName rtbUID : String) (subject : Subject) (s : RBACState)
    (c : Binding)
    (hf : findMembershipCandidate (rbRoleSubjectKey roleName subject)
      (membershipBindingOwnerIndexLookup rtbUID s.bindings) none = Except.ok (some c)) :
    membershipPipeline reconcile generateStem roleName rtbUID subject s =
      ({ s with bindings := reconcile s.bindings }, true) := by
  simp only [membershipPipeline, hf]

theorem membershipPipeline_eq_create (reconcile : List Binding → List Binding)
    (generateStem roleName rtbUID : String) (subject : Subject) (s : RBACState)
    (hf : findMembershipCandidate (rbRoleSubjectKey roleName subject)
      (membershipBindingOwnerIndexLookup rtbUID s.bindings) none = Except.ok none)
    (hb : rbByRoleAndSubjectLookup (rbRoleSubjectKey roleName subject)
      (reconcile s.bindings) = []) :
    membershipPipeline reconcile generateStem roleName rtbUID subject s =
      ({ s with
          bindings := reconcile s.bindings ++
            [{ name := generateStem ++ toString s.nextId,
               labels := [(rtbUID, membershipBindingOwner)],
               subjects := [subject], roleRefName := roleName }],
          nextId := s.nextId + 1 }, true) := by
  simp only [membershipPipeline, hf, hb]

theorem membershipPipeline_eq_labeled (reconcile : List Binding → List Binding)
    (generateStem roleName rtbUID : String) (subject : Subject) (s : RBACState)
    (c0 : Binding) (rest : List Binding)
    (hf : findMembershipCandidate (rbRoleSubjectKey roleName subject)
      (membershipBindingOwnerIndexLookup rtbUID s.bindings) none = Except.ok none)
    (hb : rbByRoleAndSubjectLookup (rbRoleSubjectKey roleName subject)
      (reconcile s.bindings) = c0 :: rest)
    (hlab : c0.labels.any (fun p => decide (p.1 = rtbUID)) = true) :
    membershipPipeline reconcile generateStem roleName rtbUID subject s =
      ({ s with bindings := reconcile s.bindings }, true) := by
  simp only [membershipPipeline, hf, hb, hlab, if_true]

theorem membershipPipeline_eq_addLabel (reconcile : List Binding → List Binding)
    (generateStem roleName rtbUID : String) (subject : Subject) (s : RBACState)
    (c0 : Binding) (rest : List Binding)
    (hf : findMembershipCandidate (rbRoleSubjectKey roleName subject)
      (membershipBindingOwnerIndexLookup rtbUID s.bindings) none = Except.ok none)
    (hb : rbByRoleAndSubjectLookup (rbRoleSubjectKey roleName subject)
      (reconcile s.bindings) = c0 :: rest)
    (hlab : c0.labels.any (fun p => decide (p.1 = rtbUID)) = false) :
    membershipPipeline reconcile generateStem roleName rtbUID subject s =
      ({ s with bindings :=
          (updateBinding
            { c0 with labels := c0.labels ++ [(rtbUID, membershipBindingOwner)] }
            (reconcile s.bindings)) }, true) := by
  simp only [membershipPipeline, hf, hb, hlab, Bool.false_eq_true, if_false]

theorem byKey_head_props (key : String × Subject) (bs : List Binding)
    (c0 : Binding) (rest : List Binding)
    (hb : rbByRoleAndSubjectLookup key bs = c0 :: rest) :
    c0 ∈ bs ∧ c0.roleRefName = key.1 ∧ key.2 ∈ c0.subjects := by
  have h0 : c0 ∈ rbByRoleAndSubjectLookup key bs := by
    rw [hb]
    exact List.mem_cons_self _ _
  rw [rbByRoleAndSubjectLookup] at h0
  obtain ⟨hmem, hpred⟩ := List.mem_filter.mp h0
  rw [List.any_eq_true] at hpred
  obtain ⟨sb, hsb, he⟩ := hpred
  rw [decide_eq_true_eq, rbRoleSubjectKey] at he
  refine ⟨hmem, ?_, ?_⟩
  · rw [← he]
  · rw [← he]
    exact hsb

theorem binding_eq_of_name_eq {bs : List Binding}
    (hnd : (bs.map Binding.name).Nodup) {x y : Binding} (hx : x ∈ bs)
    (hy : y ∈ bs) (he : x.name = y.name) : x = y :=
  List.inj_on_of_nodup_map hnd hx hy he

theorem membershipPipeline_flag (reconcile : List Binding → List Binding)
    (generateStem roleName rtbUID : String) (subject : Subject) (s : RBACState)
    (hne : ∀ b ∈ membershipBindingOwnerIndexLookup rtbUID s.bindings,
      b.subjects ≠ []) :
    (membershipPipeline reconcile generateStem roleName rtbUID subject s).2 = true := by
  obtain ⟨r, hr⟩ := findCand_total (rbRoleSubjectKey roleName subject)
    (membershipBindingOwnerIndexLookup rtbUID s.bindings) hne none
  rw [membershipPipeline]
  simp only [hr]
  rcases r with _ | c
  · rcases hb : rbByRoleAndSubjectLookup (rbRoleSubjectKey roleName subject)
        (reconcile s.bindings) with _ | ⟨c0, rest⟩
    · simp [hb]
    · by_cases hlab : c0.labels.any (fun p => decide (p.1 = rtbUID))
      · simp [hb, hlab]
      · simp [hb, hlab]
  · simp

/-- A tagged membership binding whose subject list is empty: the concrete
store object that trips the `Subjects[0]` read. -/
def c10FaultBinding (rtbUID : String) : Binding :=
  { name := "crb-bad", labels := [(rtbUID, membershipBindingOwner)],
    subjects := [], roleRefName := "role-a" }

/-- A store holding only the empty-subjects tagged binding. -/
def c10FaultState (rtbUID : String) : RBACState :=
  { bindings := [c10FaultBinding rtbUID], roles := [], nextId := 0 }

/-- C10: both ensure functions run to completion (no `Subjects[0]`
out-of-bounds read) whenever every binding returned by the
membership-binding-owner index has at least one subject; and the
precondition is necessary: on a store holding a tagged binding with an
empty subject list, the candidate loop of either variant reads
`Subjects[0]` out of bounds (the modelled fault flag is false),
whatever the remaining arguments are. -/
theorem ensureMembership_subjects_precondition
    (roleName rtbUID ownerName : String) (makeOwner : Bool) (subject : Subject)
    (s0 : RBACState)
    (hne : ∀ b ∈ membershipBindingOwnerIndexLookup rtbUID s0.bindings,
      b.subjects ≠ []) :
    ((ensureClusterMembershipBinding roleName rtbUID ownerName makeOwner
        subject s0).2 = true ∧
     (ensureProjectMembershipBinding roleName rtbUID ownerName makeOwner
        subject s0).2 = true) ∧
    ((ensureClusterMembershipBinding roleName rtbUID ownerName makeOwner
        subject (c10FaultState rtbUID)).2 = false ∧
     (ensureProjectMembershipBinding roleName rtbUID ownerName makeOwner
        subject (c10FaultState rtbUID)).2 = false) := by
  have hfault : ∀ resourceType : String,
      (membershipPipeline
        (reconcileClusterMembershipBindingForDelete roleName rtbUID)
        "clusterrolebinding-" roleName rtbUID subject
        (createMembershipRoleIfAbsent resourceType roleName ownerName makeOwner
          (c10FaultState rtbUID))).2 = false ∧
      (membershipPipeline
        (reconcileProjectMembershipBindingForDelete roleName rtbUID)
        "rolebinding-" roleName rtbUID subject
        (createMembershipRoleIfAbsent resourceType roleName ownerName makeOwner
          (c10FaultState rtbUID))).2 = false := by
    intro resourceType
    have hs := createMembershipRoleIfAbsent_state resourceType roleName ownerName
      makeOwner (c10FaultState rtbUID)
    have hlook : membershipBindingOwnerIndexLookup rtbUID
        (createMembershipRoleIfAbsent resourceType roleName ownerName makeOwner
          (c10FaultState rtbUID)).bindings = [c10FaultBinding rtbUID] := by
      rw [hs.1]
      simp [membershipBindingOwnerIndexLookup, c10FaultState, taggedWithOwner,
        c10FaultBinding]
    have hf : findMembershipCandidate (rbRoleSubjectKey roleName subject)
        (membershipBindingOwnerIndexLookup rtbUID
          (createMembershipRoleIfAbsent resourceType roleName ownerName makeOwner
            (c10FaultState rtbUID)).bindings) none = Except.error () := by
      rw [hlook]
      rfl
    constructor
    · rw [membershipPipeline_eq_error _ _ _ _ _ _ () hf]
    · rw [membershipPipeline_eq_error _ _ _ _ _ _ () hf]
  refine ⟨⟨?_, ?_⟩, ?_, ?_⟩
  · have hs := createMembershipRoleIfAbsent_state clusterResource roleName
      ownerName makeOwner s0
    exact membershipPipeline_flag _ _ _ _ _ _ (by rw [hs.1]; exact hne)
  · have hs := createMembershipRoleIfAbsent_state projectResource roleName
      ownerName makeOwner s0
    exact membershipPipeline_flag _ _ _ _ _ _ (by rw [hs.1]; exact hne)
  · exact (hfault clusterResource).1
  · exact (hfault projectResource).2

theorem ensureMembership_subjects_precondition_witness :
    (∀ b ∈ membershipBindingOwnerIndexLookup "uid-1"
        (RBACState.mk [] [] 0).bindings, b.subjects ≠ []) ∧
    (((ensureClusterMembershipBinding "role-a" "uid-1" "c1" false
        (Subject.mk "User" "u1") (RBACState.mk [] [] 0)).2 = true ∧
      (ensureProjectMembershipBinding "role-a" "uid-1" "c1" false
        (Subject.mk "User" "u1") (RBACState.mk [] [] 0)).2 = true) ∧
     ((ensureClusterMembershipBinding "role-a" "uid-1" "c1" false
        (Subject.mk "User" "u1") (c10FaultState "uid-1")).2 = false ∧
      (ensureProjectMembershipBinding "role-a" "uid-1" "c1" false
        (Subject.mk "User" "u1") (c10FaultState "uid-1")).2 = false)) :=
  ⟨by simp [membershipBindingOwnerIndexLookup],
   ensureMembership_subjects_precondition "role-a" "uid-1" "c1" false
     (Subject.mk "User" "u1") (RBACState.mk [] [] 0)
     (by simp [membershipBindingOwnerIndexLookup])⟩

theorem pipeline_twice_eq {P : RBACState → RBACState × Bool} {s sOut : RBACState}
    {f1 f2 : Bool} (h1 : P s = (sOut, f1)) (h3 : P sOut = (sOut, f2)) :
    (P (P s).1).1 = (P s).1 := by
  rw [h1]
  show (P sOut).1 = sOut
  rw [h3]

theorem candMatchesB_props (key : String × Subject) (b : Binding)
    (h : candMatchesB key b = true) :
    b.roleRefName = key.1 ∧ b.subjects ≠ [] := by
  rw [candMatchesB] at h
  rcases hsub : b.subjects with _ | ⟨s0, tl⟩
  · simp only [hsub] at h
    exact Bool.noConfusion h
  · simp only [hsub, Bool.and_eq_true, decide_eq_true_eq] at h
    refine ⟨?_, by simp⟩
    rw [← h.2, rbRoleSubjectKey]

theorem clusterPipeline_idem (roleName rtbUID stem : String) (subject : Subject)
    (s' : RBACState) (hnd : (s'.bindings.map Binding.name).Nodup) :
    (membershipPipeline (reconcileClusterMembershipBindingForDelete roleName rtbUID)
        stem roleName rtbUID subject
        (membershipPipeline (reconcileClusterMembershipBindingForDelete roleName rtbUID)
          stem roleName rtbUID subject s').1).1
      = (membershipPipeline (reconcileClusterMembershipBindingForDelete roleName rtbUID)
          stem roleName rtbUID subject s').1 := by
  rcases hf : findMembershipCandidate (rbRoleSubjectKey roleName subject)
      (membershipBindingOwnerIndexLookup rtbUID s'.bindings) none with e | crbOpt
  · have h1 : membershipPipeline
        (reconcileClusterMembershipBindingForDelete roleName rtbUID)
        stem roleName rtbUID subject s' = (s', false) :=
      membershipPipeline_eq_error _ _ _ _ _ _ e hf
    exact pipeline_twice_eq h1 h1
  · rcases crbOpt with _ | c
    · rcases hb : rbByRoleAndSubjectLookup (rbRoleSubjectKey roleName subject)
          s'.bindings with _ | ⟨c0, rest⟩
      · -- no binding carries the key: a fresh one is created; the second
        -- call finds it already labeled and changes nothing
        have hbr : rbByRoleAndSubjectLookup (rbRoleSubjectKey roleName subject)
            (reconcileClusterMembershipBindingForDelete roleName rtbUID
              s'.bindings) = [] := by
          rw [reconCluster_id]
          exact hb
        have h1 : membershipPipeline
            (reconcileClusterMembershipBindingForDelete roleName rtbUID)
            stem roleName rtbUID subject s' =
            ({ s' with
                bindings := s'.bindings ++
                  [{ name := stem ++ toString s'.nextId,
                     labels := [(rtbUID, membershipBindingOwner)],
                     subjects := [subject], roleRefName := roleName }],
                nextId := s'.nextId + 1 }, true) := by
          have h1' := membershipPipeline_eq_create
            (reconcileClusterMembershipBindingForDelete roleName rtbUID)
            stem roleName rtbUID subject s' hf hbr
          rw [reconCluster_id] at h1'
          exact h1'
        have hlook2 : membershipBindingOwnerIndexLookup rtbUID
            (s'.bindings ++
              [{ name := stem ++ toString s'.nextId,
                 labels := [(rtbUID, membershipBindingOwner)],
                 subjects := [subject], roleRefName := roleName }]) =
            membershipBindingOwnerIndexLookup rtbUID s'.bindings ++
              [{ name := stem ++ toString s'.nextId,
                 labels := [(rtbUID, membershipBindingOwner)],
                 subjects := [subject], roleRefName := roleName }] := by
          simp [membershipBindingOwnerIndexLookup, List.filter_append,
            taggedWithOwner]
        have hf2 : findMembershipCandidate (rbRoleSubjectKey roleName subject)
            (membershipBindingOwnerIndexLookup rtbUID
              (s'.bindings ++
                [{ name := stem ++ toString s'.nextId,
                   labels := [(rtbUID, membershipBindingOwner)],
                   subjects := [subject], roleRefName := roleName }])) none =
            Except.ok none := by
          rw [hlook2]
          apply findCand_const
          intro b hbmem
          rcases List.mem_append.mp hbmem with hbl | hbr2
          · exact ⟨findCand_ok_nonempty _ _ _ _ hf b hbl,
              findCand_ok_none_nomatch _ _ _ hf b hbl⟩
          · rcases List.mem_singleton.mp hbr2 with rfl
            exact ⟨by simp, by simp [candMatchesB]⟩
        have hb2 : rbByRoleAndSubjectLookup (rbRoleSubjectKey roleName subject)
            (reconcileClusterMembershipBindingForDelete roleName rtbUID
              (s'.bindings ++
                [{ name := stem ++ toString s'.nextId,
                   labels := [(rtbUID, membershipBindingOwner)],
                   subjects := [subject], roleRefName := roleName }])) =
            [{ name := stem ++ toString s'.nextId,
               labels := [(rtbUID, membershipBindingOwner)],
               subjects := [subject], roleRefName := roleName }] := by
          rw [reconCluster_id, byKey_append, hb]
          simp [rbByRoleAndSubjectLookup, rbRoleSubjectKey]
        have hlab2 : ([(rtbUID, membershipBindingOwner)] :
            List (String × String)).any (fun p => decide (p.1 = rtbUID)) = true := by
          simp
        have h3 : membershipPipeline
            (reconcileClusterMembershipBindingForDelete roleName rtbUID)
            stem roleName rtbUID subject
            ({ s' with
                bindings := s'.bindings ++
                  [{ name := stem ++ toString s'.nextId,
                     labels := [(rtbUID, membershipBindingOwner)],
                     subjects := [subject], roleRefName := roleName }],
                nextId := s'.nextId + 1 }) =
            ({ s' with
                bindings := s'.bindings ++
                  [{ name := stem ++ toString s'.nextId,
                     labels := [(rtbUID, membershipBindingOwner)],
                     subjects := [subject], roleRefName := roleName }],
                nextId := s'.nextId + 1 }, true) := by
          have h3' := membershipPipeline_eq_labeled
            (reconcileClusterMembershipBindingForDelete roleName rtbUID)
            stem roleName rtbUID subject
            ({ s' with
                bindings := s'.bindings ++
                  [{ name := stem ++ toString s'.nextId,
                     labels := [(rtbUID, membershipBindingOwner)],
                     subjects := [subject], roleRefName := roleName }],
                nextId := s'.nextId + 1 })
            { name := stem ++ toString s'.nextId,
              labels := [(rtbUID, membershipBindingOwner)],
              subjects := [subject], roleRefName := roleName }
            [] hf2 hb2 hlab2
          rw [reconCluster_id] at h3'
          exact h3'
        exact pipeline_twice_eq h1 h3
      · rcases hlab : c0.labels.any (fun p => decide (p.1 = rtbUID)) with _ | _
        · -- candidate found by key but not yet labeled: the label is added;
          -- the second call sees it labeled (or readopted) and changes nothing
          have hprops := byKey_head_props (rbRoleSubjectKey roleName subject)
            s'.bindings c0 rest hb
          have hc0mem : c0 ∈ s'.bindings := hprops.1
          have hrole : c0.roleRefName = roleName := hprops.2.1
          have hsubj : subject ∈ c0.subjects := hprops.2.2
          have hbr : rbByRoleAndSubjectLookup (rbRoleSubjectKey roleName subject)
              (reconcileClusterMembershipBindingForDelete roleName rtbUID
                s'.bindings) = c0 :: rest := by
            rw [reconCluster_id]
            exact hb
          have h1 : membershipPipeline
              (reconcileClusterMembershipBindingForDelete roleName rtbUID)
              stem roleName rtbUID subject s' =
              ({ s' with bindings := (updateBinding
                  { c0 with labels := c0.labels ++ [(rtbUID, membershipBindingOwner)] }
                  s'.bindings) }, true) := by
            have h1' := membershipPipeline_eq_addLabel
              (reconcileClusterMembershipBindingForDelete roleName rtbUID)
              stem roleName rtbUID subject s' c0 rest hf hbr hlab
            rw [reconCluster_id] at h1'
            exact h1'
          have hne2 : ∀ b ∈ membershipBindingOwnerIndexLookup rtbUID
              (updateBinding
                { c0 with labels := c0.labels ++ [(rtbUID, membershipBindingOwner)] }
                s'.bindings), b.subjects ≠ [] := by
            intro b hbmem
            obtain ⟨hbin, htagb⟩ := List.mem_filter.mp hbmem
            rw [updateBinding] at hbin
            obtain ⟨x, hx, hfx⟩ := List.mem_map.mp hbin
            split_ifs at hfx with hn
            · rw [← hfx]
              show c0.subjects ≠ []
              intro hemp
              rw [hemp] at hsubj
              cases hsubj
            · rw [← hfx] at htagb ⊢
              exact findCand_ok_nonempty _ _ _ _ hf x
                (List.mem_filter.mpr ⟨hx, htagb⟩)
          obtain ⟨r2, hr2⟩ := findCand_total (rbRoleSubjectKey roleName subject)
            (membershipBindingOwnerIndexLookup rtbUID
              (updateBinding
                { c0 with labels := c0.labels ++ [(rtbUID, membershipBindingOwner)] }
                s'.bindings)) hne2 none
          rcases r2 with _ | c2
          · have hpred : ∀ b ∈ s'.bindings,
                b.name = ({ c0 with
                  labels := c0.labels ++ [(rtbUID, membershipBindingOwner)] } :
                  Binding).name →
                b.subjects = ({ c0 with
                  labels := c0.labels ++ [(rtbUID, membershipBindingOwner)] } :
                  Binding).subjects ∧
                b.roleRefName = ({ c0 with
                  labels := c0.labels ++ [(rtbUID, membershipBindingOwner)] } :
                  Binding).roleRefName := by
              intro b hbmem hbn
              have hbc : b = c0 := binding_eq_of_name_eq hnd hbmem hc0mem hbn
              subst hbc
              exact ⟨rfl, rfl⟩
            have hb2 : rbByRoleAndSubjectLookup (rbRoleSubjectKey roleName subject)
                (reconcileClusterMembershipBindingForDelete roleName rtbUID
                  (updateBinding
                    { c0 with labels := c0.labels ++ [(rtbUID, membershipBindingOwner)] }
                    s'.bindings)) =
                { c0 with labels := c0.labels ++ [(rtbUID, membershipBindingOwner)] } ::
                  rest.map (fun b => if b.name = ({ c0 with
                    labels := c0.labels ++ [(rtbUID, membershipBindingOwner)] } :
                    Binding).name then
                    { c0 with labels := c0.labels ++ [(rtbUID, membershipBindingOwner)] }
                  else b) := by
              rw [reconCluster_id, byKey_updateBinding _ _ _ hpred, hb,
                List.map_cons, if_pos rfl]
            have hlab2 : ({ c0 with
                labels := c0.labels ++ [(rtbUID, membershipBindingOwner)] } :
                Binding).labels.any (fun p => decide (p.1 = rtbUID)) = true := by
              show (c0.labels ++ [(rtbUID, membershipBindingOwner)]).any
                (fun p => decide (p.1 = rtbUID)) = true
              simp
            have h3 : membershipPipeline
                (reconcileClusterMembershipBindingForDelete roleName rtbUID)
                stem roleName rtbUID subject
                ({ s' with bindings := (updateBinding
                    { c0 with labels := c0.labels ++ [(rtbUID, membershipBindingOwner)] }
                    s'.bindings) }) =
                ({ s' with bindings := (updateBinding
                    { c0 with labels := c0.labels ++ [(rtbUID, membershipBindingOwner)] }
                    s'.bindings) }, true) := by
              have h3' := membershipPipeline_eq_labeled
                (reconcileClusterMembershipBindingForDelete roleName rtbUID)
                stem roleName rtbUID subject
                ({ s' with bindings := (updateBinding
                    { c0 with labels := c0.labels ++ [(rtbUID, membershipBindingOwner)] }
                    s'.bindings) })
                { c0 with labels := c0.labels ++ [(rtbUID, membershipBindingOwner)] }
                (rest.map (fun b => if b.name = ({ c0 with
                    labels := c0.labels ++ [(rtbUID, membershipBindingOwner)] } :
                    Binding).name then
                    { c0 with labels := c0.labels ++ [(rtbUID, membershipBindingOwner)] }
                  else b)) hr2 hb2 hlab2
              rw [reconCluster_id] at h3'
              exact h3'
            exact pipeline_twice_eq h1 h3
          · have h3 : membershipPipeline
                (reconcileClusterMembershipBindingForDelete roleName rtbUID)
                stem roleName rtbUID subject
                ({ s' with bindings := (updateBinding
                    { c0 with labels := c0.labels ++ [(rtbUID, membershipBindingOwner)] }
                    s'.bindings) }) =
                ({ s' with bindings := (updateBinding
                    { c0 with labels := c0.labels ++ [(rtbUID, membershipBindingOwner)] }
                    s'.bindings) }, true) := by
              have h3' := membershipPipeline_eq_found
                (reconcileClusterMembershipBindingForDelete roleName rtbUID)
                stem roleName rtbUID subject
                ({ s' with bindings := (updateBinding
                    { c0 with labels := c0.labels ++ [(rtbUID, membershipBindingOwner)] }
                    s'.bindings) }) c2 hr2
              rw [reconCluster_id] at h3'
              exact h3'
            exact pipeline_twice_eq h1 h3
        · -- candidate found by key and already labeled: nothing changes
          have hbr : rbByRoleAndSubjectLookup (rbRoleSubjectKey roleName subject)
              (reconcileClusterMembershipBindingForDelete roleName rtbUID
                s'.bindings) = c0 :: rest := by
            rw [reconCluster_id]
            exact hb
          have h1 : membershipPipeline
              (reconcileClusterMembershipBindingForDelete roleName rtbUID)
              stem roleName rtbUID subject s' = (s', true) := by
            have h1' := membershipPipeline_eq_labeled
              (reconcileClusterMembershipBindingForDelete roleName rtbUID)
              stem roleName rtbUID subject s' c0 rest hf hbr hlab
            rw [reconCluster_id] at h1'
            exact h1'
          exact pipeline_twice_eq h1 h1
    · -- an adopted candidate exists: the first call only runs the (no-op)
      -- cluster reconcile, so nothing changes either time
      have h1 : membershipPipeline
          (reconcileClusterMembershipBindingForDelete roleName rtbUID)
          stem roleName rtbUID subject s' = (s', true) := by
        have h1' := membershipPipeline_eq_found
          (reconcileClusterMembershipBindingForDelete roleName rtbUID)
          stem roleName rtbUID subject s' c hf
        rw [reconCluster_id] at h1'
        exact h1'
      exact pipeline_twice_eq h1 h1

theorem projectPipeline_idem (roleName rtbUID stem : String) (subject : Subject)
    (s' : RBACState) (hnd : (s'.bindings.map Binding.name).Nodup) :
    (membershipPipeline (reconcileProjectMembershipBindingForDelete roleName rtbUID)
        stem roleName rtbUID subject
        (membershipPipeline (reconcileProjectMembershipBindingForDelete roleName rtbUID)
          stem roleName rtbUID subject s').1).1
      = (membershipPipeline (reconcileProjectMembershipBindingForDelete roleName rtbUID)
          stem roleName rtbUID subject s').1 := by
  have hsurv := fun b hbm htb =>
    reconProj_tagged_survivor roleName rtbUID s'.bindings hnd b hbm htb
  have hndP := reconProj_nodup roleName rtbUID s'.bindings hnd
  have hrecid : reconcileProjectMembershipBindingForDelete roleName rtbUID
      (reconcileProjectMembershipBindingForDelete roleName rtbUID s'.bindings) =
      reconcileProjectMembershipBindingForDelete roleName rtbUID s'.bindings :=
    reconProj_id_of_all_roleToKeep roleName rtbUID _
      (fun b hbm htb => (hsurv b hbm htb).2)
  rcases hf : findMembershipCandidate (rbRoleSubjectKey roleName subject)
      (membershipBindingOwnerIndexLookup rtbUID s'.bindings) none with e | crbOpt
  · have h1 : membershipPipeline
        (reconcileProjectMembershipBindingForDelete roleName rtbUID)
        stem roleName rtbUID subject s' = (s', false) :=
      membershipPipeline_eq_error _ _ _ _ _ _ e hf
    exact pipeline_twice_eq h1 h1
  · have hneSurv : ∀ b ∈ membershipBindingOwnerIndexLookup rtbUID
        (reconcileProjectMembershipBindingForDelete roleName rtbUID s'.bindings),
        b.subjects ≠ [] := by
      intro b hbm
      obtain ⟨hbin, htagb⟩ := List.mem_filter.mp hbm
      exact findCand_ok_nonempty _ _ _ _ hf b
        (List.mem_filter.mpr ⟨(hsurv b hbin htagb).1, htagb⟩)
    rcases crbOpt with _ | c
    · -- no candidate adopted: the project reconcile runs, then byKey decides
      have hnomatchSurv : ∀ b ∈ membershipBindingOwnerIndexLookup rtbUID
          (reconcileProjectMembershipBindingForDelete roleName rtbUID s'.bindings),
          candMatchesB (rbRoleSubjectKey roleName subject) b = false := by
        intro b hbm
        obtain ⟨hbin, htagb⟩ := List.mem_filter.mp hbm
        exact findCand_ok_none_nomatch _ _ _ hf b
          (List.mem_filter.mpr ⟨(hsurv b hbin htagb).1, htagb⟩)
      have hf2 : findMembershipCandidate (rbRoleSubjectKey roleName subject)
          (membershipBindingOwnerIndexLookup rtbUID
            (reconcileProjectMembershipBindingForDelete roleName rtbUID
              s'.bindings)) none = Except.ok none :=
        findCand_const _ _ (fun b hbm => ⟨hneSurv b hbm, hnomatchSurv b hbm⟩) none
      rcases hb : rbByRoleAndSubjectLookup (rbRoleSubjectKey roleName subject)
          (reconcileProjectMembershipBindingForDelete roleName rtbUID s'.bindings)
          with _ | ⟨c0, rest⟩
      · -- fresh binding created; the second call finds it labeled
        have h1 := membershipPipeline_eq_create
          (reconcileProjectMembershipBindingForDelete roleName rtbUID)
          stem roleName rtbUID subject s' hf hb
        have hrolesApp : ∀ b ∈ reconcileProjectMembershipBindingForDelete roleName
            rtbUID s'.bindings ++
            [{ name := stem ++ toString s'.nextId,
               labels := [(rtbUID, membershipBindingOwner)],
               subjects := [subject], roleRefName := roleName }],
            taggedWithOwner rtbUID b = true → b.roleRefName = roleName := by
          intro b hbm htb
          rcases List.mem_append.mp hbm with hbl | hbr2
          · exact (hsurv b hbl htb).2
          · rcases List.mem_singleton.mp hbr2 with rfl
            rfl
        have hrecid3 : reconcileProjectMembershipBindingForDelete roleName rtbUID
            (reconcileProjectMembershipBindingForDelete roleName rtbUID
              s'.bindings ++
              [{ name := stem ++ toString s'.nextId,
                 labels := [(rtbUID, membershipBindingOwner)],
                 subjects := [subject], roleRefName := roleName }]) =
            reconcileProjectMembershipBindingForDelete roleName rtbUID
              s'.bindings ++
              [{ name := stem ++ toString s'.nextId,
                 labels := [(rtbUID, membershipBindingOwner)],
                 subjects := [subject], roleRefName := roleName }] :=
          reconProj_id_of_all_roleToKeep _ _ _ hrolesApp
        have hlook2 : membershipBindingOwnerIndexLookup rtbUID
            (reconcileProjectMembershipBindingForDelete roleName rtbUID
              s'.bindings ++
              [{ name := stem ++ toString s'.nextId,
                 labels := [(rtbUID, membershipBindingOwner)],
                 subjects := [subject], roleRefName := roleName }]) =
            membershipBindingOwnerIndexLookup rtbUID
              (reconcileProjectMembershipBindingForDelete roleName rtbUID
                s'.bindings) ++
              [{ name := stem ++ toString s'.nextId,
                 labels := [(rtbUID, membershipBindingOwner)],
                 subjects := [subject], roleRefName := roleName }] := by
          simp [membershipBindingOwnerIndexLookup, List.filter_append,
            taggedWithOwner]
        have hf3 : findMembershipCandidate (rbRoleSubjectKey roleName subject)
            (membershipBindingOwnerIndexLookup rtbUID
              (reconcileProjectMembershipBindingForDelete roleName rtbUID
                s'.bindings ++
                [{ name := stem ++ toString s'.nextId,
                   labels := [(rtbUID, membershipBindingOwner)],
                   subjects := [subject], roleRefName := roleName }])) none =
            Except.ok none := by
          rw [hlook2]
          apply findCand_const
          intro b hbm
          rcases List.mem_append.mp hbm with hbl | hbr2
          · exact ⟨hneSurv b hbl, hnomatchSurv b hbl⟩
          · rcases List.mem_singleton.mp hbr2 with rfl
            exact ⟨by simp, by simp [candMatchesB]⟩
        have hb3 : rbByRoleAndSubjectLookup (rbRoleSubjectKey roleName subject)
            (reconcileProjectMembershipBindingForDelete roleName rtbUID
              (reconcileProjectMembershipBindingForDelete roleName rtbUID
                s'.bindings ++
                [{ name := stem ++ toString s'.nextId,
                   labels := [(rtbUID, membershipBindingOwner)],
                   subjects := [subject], roleRefName := roleName }])) =
            [{ name := stem ++ toString s'.nextId,
               labels := [(rtbUID, membershipBindingOwner)],
               subjects := [subject], roleRefName := roleName }] := by
          rw [hrecid3, byKey_append, hb]
          simp [rbByRoleAndSubjectLookup, rbRoleSubjectKey]
        have hlab3 : ([(rtbUID, membershipBindingOwner)] :
            List (String × String)).any (fun p => decide (p.1 = rtbUID)) = true := by
          simp
        have h3 : membershipPipeline
            (reconcileProjectMembershipBindingForDelete roleName rtbUID)
            stem roleName rtbUID subject
            ({ s' with
                bindings := (reconcileProjectMembershipBindingForDelete roleName
                  rtbUID s'.bindings ++
                  [{ name := stem ++ toString s'.nextId,
                     labels := [(rtbUID, membershipBindingOwner)],
                     subjects := [subject], roleRefName := roleName }]),
                nextId := s'.nextId + 1 }) =
            ({ s' with
                bindings := (reconcileProjectMembershipBindingForDelete roleName
                  rtbUID s'.bindings ++
                  [{ name := stem ++ toString s'.nextId,
                     labels := [(rtbUID, membershipBindingOwner)],
                     subjects := [subject], roleRefName := roleName }]),
                nextId := s'.nextId + 1 }, true) := by
          have h3' := membershipPipeline_eq_labeled
            (reconcileProjectMembershipBindingForDelete roleName rtbUID)
            stem roleName rtbUID subject
            ({ s' with
                bindings := (reconcileProjectMembershipBindingForDelete roleName
                  rtbUID s'.bindings ++
                  [{ name := stem ++ toString s'.nextId,
                     labels := [(rtbUID, membershipBindingOwner)],
                     subjects := [subject], roleRefName := roleName }]),
                nextId := s'.nextId + 1 })
            { name := stem ++ toString s'.nextId,
              labels := [(rtbUID, membershipBindingOwner)],
              subjects := [subject], roleRefName := roleName }
            [] hf3 hb3 hlab3
          have hrecid3' : reconcileProjectMembershipBindingForDelete roleName
              rtbUID
              (({ s' with
                  bindings := (reconcileProjectMembershipBindingForDelete roleName
                    rtbUID s'.bindings ++
                    [{ name := stem ++ toString s'.nextId,
                       labels := [(rtbUID, membershipBindingOwner)],
                       subjects := [subject], roleRefName := roleName }]),
                  nextId := s'.nextId + 1 } : RBACState)).bindings =
              (({ s' with
                  bindings := (reconcileProjectMembershipBindingForDelete roleName
                    rtbUID s'.bindings ++
                    [{ name := stem ++ toString s'.nextId,
                       labels := [(rtbUID, membershipBindingOwner)],
                       subjects := [subject], roleRefName := roleName }]),
                  nextId := s'.nextId + 1 } : RBACState)).bindings := hrecid3
          rw [hrecid3'] at h3'
          exact h3'
        exact pipeline_twice_eq h1 h3
      · have hprops := byKey_head_props (rbRoleSubjectKey roleName subject)
          (reconcileProjectMembershipBindingForDelete roleName rtbUID s'.bindings)
          c0 rest hb
        have hc0mem : c0 ∈ reconcileProjectMembershipBindingForDelete roleName
            rtbUID s'.bindings := hprops.1
        have hrole : c0.roleRefName = roleName := hprops.2.1
        have hsubj : subject ∈ c0.subjects := hprops.2.2
        rcases hlab : c0.labels.any (fun p => decide (p.1 = rtbUID)) with _ | _
        · -- the key match is unlabeled: the label is added; the second call
          -- sees it labeled (or readopted) and changes nothing
          have h1 := membershipPipeline_eq_addLabel
            (reconcileProjectMembershipBindingForDelete roleName rtbUID)
            stem roleName rtbUID subject s' c0 rest hf hb hlab
          have hrolesU : ∀ b ∈ updateBinding
              { c0 with labels := c0.labels ++ [(rtbUID, membershipBindingOwner)] }
              (reconcileProjectMembershipBindingForDelete roleName rtbUID
                s'.bindings),
              taggedWithOwner rtbUID b = true → b.roleRefName = roleName := by
            intro b hbm htb
            rw [updateBinding] at hbm
            obtain ⟨x, hx, hfx⟩ := List.mem_map.mp hbm
            split_ifs at hfx with hn
            · rw [← hfx]
              exact hrole
            · rw [← hfx] at htb ⊢
              exact (hsurv x hx htb).2
          have hrecidU : reconcileProjectMembershipBindingForDelete roleName rtbUID
              (updateBinding
                { c0 with labels := c0.labels ++ [(rtbUID, membershipBindingOwner)] }
                (reconcileProjectMembershipBindingForDelete roleName rtbUID
                  s'.bindings)) =
              updateBinding
                { c0 with labels := c0.labels ++ [(rtbUID, membershipBindingOwner)] }
                (reconcileProjectMembershipBindingForDelete roleName rtbUID
                  s'.bindings) :=
            reconProj_id_of_all_roleToKeep _ _ _ hrolesU
          have hne2 : ∀ b ∈ membershipBindingOwnerIndexLookup rtbUID
              (updateBinding
                { c0 with labels := c0.labels ++ [(rtbUID, membershipBindingOwner)] }
                (reconcileProjectMembershipBindingForDelete roleName rtbUID
                  s'.bindings)), b.subjects ≠ [] := by
            intro b hbm
            obtain ⟨hbin, htagb⟩ := List.mem_filter.mp hbm
            rw [updateBinding] at hbin
            obtain ⟨x, hx, hfx⟩ := List.mem_map.mp hbin
            split_ifs at hfx with hn
            · rw [← hfx]
              show c0.subjects ≠ []
              intro hemp
              rw [hemp] at hsubj
              cases hsubj
            · rw [← hfx] at htagb ⊢
              exact hneSurv x (List.mem_filter.mpr ⟨hx, htagb⟩)
          obtain ⟨r2, hr2⟩ := findCand_total (rbRoleSubjectKey roleName subject)
            (membershipBindingOwnerIndexLookup rtbUID
              (updateBinding
                { c0 with labels := c0.labels ++ [(rtbUID, membershipBindingOwner)] }
                (reconcileProjectMembershipBindingForDelete roleName rtbUID
                  s'.bindings))) hne2 none
          have hrecidU' : reconcileProjectMembershipBindingForDelete roleName rtbUID
              (({ s' with bindings := (updateBinding
                  { c0 with labels := c0.labels ++ [(rtbUID, membershipBindingOwner)] }
                  (reconcileProjectMembershipBindingForDelete roleName rtbUID
                    s'.bindings)) } : RBACState)).bindings =
              (({ s' with bindings := (updateBinding
                  { c0 with labels := c0.labels ++ [(rtbUID, membershipBindingOwner)] }
                  (reconcileProjectMembershipBindingForDelete roleName rtbUID
                    s'.bindings)) } : RBACState)).bindings := hrecidU
          rcases r2 with _ | c2
          · have hpredU : ∀ b ∈ reconcileProjectMembershipBindingForDelete roleName
                rtbUID s'.bindings,
                b.name = ({ c0 with
                  labels := c0.labels ++ [(rtbUID, membershipBindingOwner)] } :
                  Binding).name →
                b.subjects = ({ c0 with
                  labels := c0.labels ++ [(rtbUID, membershipBindingOwner)] } :
                  Binding).subjects ∧
                b.roleRefName = ({ c0 with
                  labels := c0.labels ++ [(rtbUID, membershipBindingOwner)] } :
                  Binding).roleRefName := by
              intro b hbm hbn
              have hbc : b = c0 := binding_eq_of_name_eq hndP hbm hc0mem hbn
              subst hbc
              exact ⟨rfl, rfl⟩
            have hb2 : rbByRoleAndSubjectLookup (rbRoleSubjectKey roleName subject)
                (reconcileProjectMembershipBindingForDelete roleName rtbUID
                  (updateBinding
                    { c0 with labels := c0.labels ++ [(rtbUID, membershipBindingOwner)] }
                    (reconcileProjectMembershipBindingForDelete roleName rtbUID
                      s'.bindings))) =
                { c0 with labels := c0.labels ++ [(rtbUID, membershipBindingOwner)] } ::
                  rest.map (fun b => if b.name = ({ c0 with
                    labels := c0.labels ++ [(rtbUID, membershipBindingOwner)] } :
                    Binding).name then
                    { c0 with labels := c0.labels ++ [(rtbUID, membershipBindingOwner)] }
                  else b) := by
              rw [hrecidU, byKey_updateBinding _ _ _ hpredU, hb,
                List.map_cons, if_pos rfl]
            have hlab2 : ({ c0 with
                labels := c0.labels ++ [(rtbUID, membershipBindingOwner)] } :
                Binding).labels.any (fun p => decide (p.1 = rtbUID)) = true := by
              show (c0.labels ++ [(rtbUID, membershipBindingOwner)]).any
                (fun p => decide (p.1 = rtbUID)) = true
              simp
            have h3 : membershipPipeline
                (reconcileProjectMembershipBindingForDelete roleName rtbUID)
                stem roleName rtbUID subject
                ({ s' with bindings := (updateBinding
                    { c0 with labels := c0.labels ++ [(rtbUID, membershipBindingOwner)] }
                    (reconcileProjectMembershipBindingForDelete roleName rtbUID
                      s'.bindings)) }) =
                ({ s' with bindings := (updateBinding
                    { c0 with labels := c0.labels ++ [(rtbUID, membershipBindingOwner)] }
                    (reconcileProjectMembershipBindingForDelete roleName rtbUID
                      s'.bindings)) }, true) := by
              have h3' := membershipPipeline_eq_labeled
                (reconcileProjectMembershipBindingForDelete roleName rtbUID)
                stem roleName rtbUID subject
                ({ s' with bindings := (updateBinding
                    { c0 with labels := c0.labels ++ [(rtbUID, membershipBindingOwner)] }
                    (reconcileProjectMembershipBindingForDelete roleName rtbUID
                      s'.bindings)) })
                { c0 with labels := c0.labels ++ [(rtbUID, membershipBindingOwner)] }
                (rest.map (fun b => if b.name = ({ c0 with
                    labels := c0.labels ++ [(rtbUID, membershipBindingOwner)] } :
                    Binding).name then
                    { c0 with labels := c0.labels ++ [(rtbUID, membershipBindingOwner)] }
                  else b)) hr2 hb2 hlab2
              rw [hrecidU'] at h3'
              exact h3'
            exact pipeline_twice_eq h1 h3
          · have h3 : membershipPipeline
                (reconcileProjectMembershipBindingForDelete roleName rtbUID)
                stem roleName rtbUID subject
                ({ s' with bindings := (updateBinding
                    { c0 with labels := c0.labels ++ [(rtbUID, membershipBindingOwner)] }
                    (reconcileProjectMembershipBindingForDelete roleName rtbUID
                      s'.bindings)) }) =
                ({ s' with bindings := (updateBinding
                    { c0 with labels := c0.labels ++ [(rtbUID, membershipBindingOwner)] }
                    (reconcileProjectMembershipBindingForDelete roleName rtbUID
                      s'.bindings)) }, true) := by
              have h3' := membershipPipeline_eq_found
                (reconcileProjectMembershipBindingForDelete roleName rtbUID)
                stem roleName rtbUID subject
                ({ s' with bindings := (updateBinding
                    { c0 with labels := c0.labels ++ [(rtbUID, membershipBindingOwner)] }
                    (reconcileProjectMembershipBindingForDelete roleName rtbUID
                      s'.bindings)) }) c2 hr2
              rw [hrecidU'] at h3'
              exact h3'
            exact pipeline_twice_eq h1 h3
        · -- the key match is already labeled: only the reconcile ran; a second
          -- pass leaves the reconciled store fixed
          have h1 := membershipPipeline_eq_labeled
            (reconcileProjectMembershipBindingForDelete roleName rtbUID)
            stem roleName rtbUID subject s' c0 rest hf hb hlab
          have hrecid' : reconcileProjectMembershipBindingForDelete roleName rtbUID
              (({ s' with bindings := (reconcileProjectMembershipBindingForDelete
                  roleName rtbUID s'.bindings) } : RBACState)).bindings =
              (({ s' with bindings := (reconcileProjectMembershipBindingForDelete
                  roleName rtbUID s'.bindings) } : RBACState)).bindings := hrecid
          have hb2 : rbByRoleAndSubjectLookup (rbRoleSubjectKey roleName subject)
              (reconcileProjectMembershipBindingForDelete roleName rtbUID
                (({ s' with bindings := (reconcileProjectMembershipBindingForDelete
                    roleName rtbUID s'.bindings) } : RBACState)).bindings) =
              c0 :: rest := by
            rw [hrecid']
            exact hb
          have h3 : membershipPipeline
              (reconcileProjectMembershipBindingForDelete roleName rtbUID)
              stem roleName rtbUID subject
              ({ s' with bindings := (reconcileProjectMembershipBindingForDelete
                  roleName rtbUID s'.bindings) }) =
              ({ s' with bindings := (reconcileProjectMembershipBindingForDelete
                  roleName rtbUID s'.bindings) }, true) := by
            have h3' := membershipPipeline_eq_labeled
              (reconcileProjectMembershipBindingForDelete roleName rtbUID)
              stem roleName rtbUID subject
              ({ s' with bindings := (reconcileProjectMembershipBindingForDelete
                  roleName rtbUID s'.bindings) }) c0 rest hf2 hb2 hlab
            rw [hrecid'] at h3'
            exact h3'
          exact pipeline_twice_eq h1 h3
    · -- a candidate is adopted: only the reconcile runs; the reconciled store
      -- is a fixed point and the candidate is adopted again
      rcases findCand_ok_some_mem (rbRoleSubjectKey roleName subject)
          (membershipBindingOwnerIndexLookup rtbUID s'.bindings) none c hf with
        hcontra | ⟨hcmem, hccand⟩
      · exact Option.noConfusion hcontra
      obtain ⟨hcin, hctag⟩ := List.mem_filter.mp hcmem
      have hcrole : c.roleRefName = roleName := (candMatchesB_props _ c hccand).1
      have hckeep : c ∈ reconcileProjectMembershipBindingForDelete roleName rtbUID
          s'.bindings :=
        reconProj_keeps roleName rtbUID s'.bindings hnd c hcin hctag hcrole
      have h1 := membershipPipeline_eq_found
        (reconcileProjectMembershipBindingForDelete roleName rtbUID)
        stem roleName rtbUID subject s' c hf
      obtain ⟨c2, hc2⟩ := findCand_match_some (rbRoleSubjectKey roleName subject)
        (membershipBindingOwnerIndexLookup rtbUID
          (reconcileProjectMembershipBindingForDelete roleName rtbUID s'.bindings))
        hneSurv c (List.mem_filter.mpr ⟨hckeep, hctag⟩) hccand none
      have hrecid' : reconcileProjectMembershipBindingForDelete roleName rtbUID
          (({ s' with bindings := (reconcileProjectMembershipBindingForDelete
              roleName rtbUID s'.bindings) } : RBACState)).bindings =
          (({ s' with bindings := (reconcileProjectMembershipBindingForDelete
              roleName rtbUID s'.bindings) } : RBACState)).bindings := hrecid
      have h3 : membershipPipeline
          (reconcileProjectMembershipBindingForDelete roleName rtbUID)
          stem roleName rtbUID subject
          ({ s' with bindings := (reconcileProjectMembershipBindingForDelete
              roleName rtbUID s'.bindings) }) =
          ({ s' with bindings := (reconcileProjectMembershipBindingForDelete
              roleName rtbUID s'.bindings) }, true) := by
        have h3' := membershipPipeline_eq_found
          (reconcileProjectMembershipBindingForDelete roleName rtbUID)
          stem roleName rtbUID subject
          ({ s' with bindings := (reconcileProjectMembershipBindingForDelete
              roleName rtbUID s'.bindings) }) c2 hc2
        rw [hrecid'] at h3'
        exact h3'
      exact pipeline_twice_eq h1 h3

/-- C3: for every argument tuple and every starting store whose bindings
carry distinct names (the object-store invariant), invoking
`ensureClusterMembershipBinding` / `ensureProjectMembershipBinding` twice
with identical arguments yields the same final state (membership bindings
and membership roles) as invoking it once — the second invocation changes
nothing. -/
theorem ensureMembership_idempotent (roleName rtbUID ownerName : String)
    (makeOwner : Bool) (subject : Subject) (s0 : RBACState)
    (hnd : (s0.bindings.map Binding.name).Nodup) :
    (ensureClusterMembershipBinding roleName rtbUID ownerName makeOwner subject
        (ensureClusterMembershipBinding roleName rtbUID ownerName makeOwner
          subject s0).1).1
      = (ensureClusterMembershipBinding roleName rtbUID ownerName makeOwner
          subject s0).1 ∧
    (ensureProjectMembershipBinding roleName rtbUID ownerName makeOwner subject
        (ensureProjectMembershipBinding roleName rtbUID ownerName makeOwner
          subject s0).1).1
      = (ensureProjectMembershipBinding roleName rtbUID ownerName makeOwner
          subject s0).1 := by
  constructor
  · obtain ⟨r, hr⟩ := createMembershipRoleIfAbsent_present clusterResource
      roleName ownerName makeOwner s0
    have hroles := membershipPipeline_roles
      (reconcileClusterMembershipBindingForDelete roleName rtbUID)
      "clusterrolebinding-" roleName rtbUID subject
      (createMembershipRoleIfAbsent clusterResource roleName ownerName makeOwner s0)
    have hcr2 : createMembershipRoleIfAbsent clusterResource roleName ownerName
        makeOwner
        (membershipPipeline
          (reconcileClusterMembershipBindingForDelete roleName rtbUID)
          "clusterrolebinding-" roleName rtbUID subject
          (createMembershipRoleIfAbsent clusterResource roleName ownerName
            makeOwner s0)).1 =
        (membershipPipeline
          (reconcileClusterMembershipBindingForDelete roleName rtbUID)
          "clusterrolebinding-" roleName rtbUID subject
          (createMembershipRoleIfAbsent clusterResource roleName ownerName
            makeOwner s0)).1 :=
      createMembershipRoleIfAbsent_of_present _ _ _ _ _ r (by rw [hroles]; exact hr)
    show (membershipPipeline
        (reconcileClusterMembershipBindingForDelete roleName rtbUID)
        "clusterrolebinding-" roleName rtbUID subject
        (createMembershipRoleIfAbsent clusterResource roleName ownerName makeOwner
          (membershipPipeline
            (reconcileClusterMembershipBindingForDelete roleName rtbUID)
            "clusterrolebinding-" roleName rtbUID subject
            (createMembershipRoleIfAbsent clusterResource roleName ownerName
              makeOwner s0)).1)).1
      = (membershipPipeline
          (reconcileClusterMembershipBindingForDelete roleName rtbUID)
          "clusterrolebinding-" roleName rtbUID subject
          (createMembershipRoleIfAbsent clusterResource roleName ownerName
            makeOwner s0)).1
    rw [hcr2]
    exact clusterPipeline_idem roleName rtbUID "clusterrolebinding-" subject
      (createMembershipRoleIfAbsent clusterResource roleName ownerName makeOwner s0)
      (by rw [(createMembershipRoleIfAbsent_state clusterResource roleName
          ownerName makeOwner s0).1]; exact hnd)
  · obtain ⟨r, hr⟩ := createMembershipRoleIfAbsent_present projectResource
      roleName ownerName makeOwner s0
    have hroles := membershipPipeline_roles
      (reconcileProjectMembershipBindingForDelete roleName rtbUID)
      "rolebinding-" roleName rtbUID subject
      (createMembershipRoleIfAbsent projectResource roleName ownerName makeOwner s0)
    have hcr2 : createMembershipRoleIfAbsent projectResource roleName ownerName
        makeOwner
        (membershipPipeline
          (reconcileProjectMembershipBindingForDelete roleName rtbUID)
          "rolebinding-" roleName rtbUID subject
          (createMembershipRoleIfAbsent projectResource roleName ownerName
            makeOwner s0)).1 =
        (membershipPipeline
          (reconcileProjectMembershipBindingForDelete roleName rtbUID)
          "rolebinding-" roleName rtbUID subject
          (createMembershipRoleIfAbsent projectResource roleName ownerName
            makeOwner s0)).1 :=
      createMembershipRoleIfAbsent_of_present _ _ _ _ _ r (by rw [hroles]; exact hr)
    show (membershipPipeline
        (reconcileProjectMembershipBindingForDelete roleName rtbUID)
        "rolebinding-" roleName rtbUID subject
        (createMembershipRoleIfAbsent projectResource roleName ownerName makeOwner
          (membershipPipeline
            (reconcileProjectMembershipBindingForDelete roleName rtbUID)
            "rolebinding-" roleName rtbUID subject
            (createMembershipRoleIfAbsent projectResource roleName ownerName
              makeOwner s0)).1)).1
      = (membershipPipeline
          (reconcileProjectMembershipBindingForDelete roleName rtbUID)
          "rolebinding-" roleName rtbUID subject
          (createMembershipRoleIfAbsent projectResource roleName ownerName
            makeOwner s0)).1
    rw [hcr2]
    exact projectPipeline_idem roleName rtbUID "rolebinding-" subject
      (createMembershipRoleIfAbsent projectResource roleName ownerName makeOwner s0)
      (by rw [(createMembershipRoleIfAbsent_state projectResource roleName
          ownerName makeOwner s0).1]; exact hnd)

theorem ensureMembership_idempotent_witness :
    ((RBACState.mk [] [] 0).bindings.map Binding.name).Nodup ∧
    ((ensureClusterMembershipBinding "role-a" "uid-1" "c1" true
        (Subject.mk "User" "u1")
        (ensureClusterMembershipBinding "role-a" "uid-1" "c1" true
          (Subject.mk "User" "u1") (RBACState.mk [] [] 0)).1).1
      = (ensureClusterMembershipBinding "role-a" "uid-1" "c1" true
          (Subject.mk "User" "u1") (RBACState.mk [] [] 0)).1 ∧
     (ensureProjectMembershipBinding "role-a" "uid-1" "c1" true
        (Subject.mk "User" "u1")
        (ensureProjectMembershipBinding "role-a" "uid-1" "c1" true
          (Subject.mk "User" "u1") (RBACState.mk [] [] 0)).1).1
      = (ensureProjectMembershipBinding "role-a" "uid-1" "c1" true
          (Subject.mk "User" "u1") (RBACState.mk [] [] 0)).1) :=
  ⟨by simp,
   ensureMembership_idempotent "role-a" "uid-1" "c1" true
     (Subject.mk "User" "u1") (RBACState.mk [] [] 0) (by simp)⟩
